import Mathlib

/-!
# V-Sp500 screener: shallow embedding of `app.js` and `sw.js`

The page script keeps three globals (`raw`, `sortKey`, `sortDir`), reads three
form controls and writes the table body, the sector drop-down and the
`lastUpdate` text.  All of that is gathered in one `State` record and every
handler becomes a function on it.  A JavaScript exception is an explicit
`JSError`; a handler that throws half-way leaves the mutations it already made.

Modelling conventions
* Row objects are finite maps from property names to primitive values
  (`JSVal`): what `JSON.parse` yields for a flat record, plus `undefined` for an
  absent property.  Nested objects/arrays as field values, non-object array
  elements and inherited `Object.prototype` members are outside the model.
* A finite number is the exact rational value of the double; the literal `1.2` of
  the source is the double it denotes.  Arithmetic rounding and `-0` are not
  modelled.  `NaN` and the two infinities are separate values.
* `Array.prototype.sort` is, in the reference definitions, a stable insertion sort
  driven by the sign of the comparator.  ECMAScript requires stability; for a
  comparator that is not a consistent ordering the resulting order is
  implementation-defined.  `String.prototype.toLowerCase` is, in the reference
  definitions, the ASCII one.  Statements that depend on the order produced for an
  inconsistent comparator, or on how text outside ASCII is lower-cased, are made
  over a `Runtime` record that supplies the two routines; the sort of the V8
  engine and a lower-casing with the Greek final sigma are further instances.
* Strings are Lean strings (sequences of Unicode scalar values, so without lone
  surrogates), compared through their UTF-16 code units; `trim` strips the
  ECMAScript white-space characters.
* `StringToNumber` and `Number::toString` (for values that need the double's
  shortest digits) are supplied by a `JSEngine` record, so every theorem holds
  for any behaviour of those two primitives.
-/

namespace VSp500

/-! ## JavaScript values -/

/-- A JavaScript Number: `NaN`, the infinities, or a finite value. -/
inductive JSNum where
  | nan
  | posInf
  | negInf
  | fin (q : ℚ)
  deriving DecidableEq

/-- The primitive values a row property can hold. -/
inductive JSVal where
  | undefined
  | null
  | bool (b : Bool)
  | num (n : JSNum)
  | str (s : String)
  deriving DecidableEq

/-- The two language primitives that are left abstract. -/
structure JSEngine where
  /-- `StringToNumber`: `Number("12.5")`, `Number("abc") = NaN`, ... -/
  stringToNumber : String → JSNum
  /-- `Number::toString` for a finite value. -/
  numberToString : ℚ → String

/-- The errors the page script can raise. -/
inductive JSError where
  | typeError
  | syntaxError
  | networkError
  deriving DecidableEq

deriving instance DecidableEq for Except

/-- Shorthand for a finite number value. -/
def JSVal.ofRat (q : ℚ) : JSVal := .num (.fin q)

/-- Test `v === null || v === undefined`. -/
def JSVal.isNullish : JSVal → Bool
  | .undefined => true
  | .null => true
  | _ => false

/-- `ToBoolean`. -/
def JSVal.truthy : JSVal → Bool
  | .undefined => false
  | .null => false
  | .bool b => b
  | .num .nan => false
  | .num (.fin q) => decide (q ≠ 0)
  | .num _ => true
  | .str s => decide (s ≠ "")

/-- The operator `a || b`. -/
def jsOr (a b : JSVal) : JSVal := if a.truthy then a else b

/-- Strict equality `a === b`: same type and same value, `NaN` unequal to itself. -/
def strictEq : JSVal → JSVal → Bool
  | .undefined, .undefined => true
  | .null, .null => true
  | .bool a, .bool b => a == b
  | .num .nan, .num _ => false
  | .num _, .num .nan => false
  | .num a, .num b => decide (a = b)
  | .str a, .str b => decide (a = b)
  | _, _ => false

/-- `ToNumber`. -/
def toNumber (E : JSEngine) : JSVal → JSNum
  | .undefined => .nan
  | .null => .fin 0
  | .bool true => .fin 1
  | .bool false => .fin 0
  | .num n => n
  | .str s => E.stringToNumber s

/-- Numeric `x < y`; false as soon as one side is `NaN`. -/
def JSNum.lt : JSNum → JSNum → Bool
  | .nan, _ => false
  | _, .nan => false
  | .posInf, _ => false
  | _, .negInf => false
  | .negInf, _ => true
  | _, .posInf => true
  | .fin a, .fin b => decide (a < b)

/-- The UTF-16 code units of one character: itself below `U+10000`, otherwise a surrogate
pair. -/
def utf16Units (c : Char) : List Nat :=
  if c.toNat < 0x10000 then [c.toNat]
  else [0xD800 + (c.toNat - 0x10000) / 0x400, 0xDC00 + (c.toNat - 0x10000) % 0x400]

/-- The UTF-16 code units of a string, which is what a JavaScript string consists of. -/
def utf16 : List Char → List Nat
  | [] => []
  | c :: cs => utf16Units c ++ utf16 cs

/-- String comparison `s < t`: lexicographic on the UTF-16 code units. -/
def strLt (s t : String) : Bool := decide (utf16 s.data < utf16 t.data)

/-- The operator `a < b`: two strings compare as strings, anything else as numbers. -/
def jsLt (E : JSEngine) (a b : JSVal) : Bool :=
  match a, b with
  | .str s, .str t => strLt s t
  | _, _ => (toNumber E a).lt (toNumber E b)

/-- The operator `a > b`. -/
def jsGt (E : JSEngine) (a b : JSVal) : Bool := jsLt E b a

/-- Numeric `x >= y`: false when a side is `NaN`, otherwise the negation of `x < y`. -/
def JSNum.ge : JSNum → JSNum → Bool
  | .nan, _ => false
  | _, .nan => false
  | x, y => !(x.lt y)

/-- The operator `a >= b`. -/
def jsGe (E : JSEngine) (a b : JSVal) : Bool :=
  match a, b with
  | .str s, .str t => !(strLt s t)
  | _, _ => (toNumber E a).ge (toNumber E b)

/-- `ToString` (template literals, string concatenation). -/
def toStr (E : JSEngine) : JSVal → String
  | .undefined => "undefined"
  | .null => "null"
  | .bool true => "true"
  | .bool false => "false"
  | .num .nan => "NaN"
  | .num .posInf => "Infinity"
  | .num .negInf => "-Infinity"
  | .num (.fin q) => E.numberToString q
  | .str s => s

/-! ## Rows -/

/-- A row object: its own properties, in order. -/
abbrev Row := List (String × JSVal)

/-- Property access `r[key]` (also `r.key`): `undefined` when absent. -/
def Row.get (r : Row) (key : String) : JSVal :=
  match r.lookup key with
  | some v => v
  | none => .undefined

/-! ## The sort stage of `render` -/

/-- The comparator handed to `rows.sort` (app.js lines 30-36). -/
def compareRows (E : JSEngine) (sortKey : String) (sortDir : Int) (a b : Row) : Int :=
  let va := a.get sortKey
  let vb := b.get sortKey
  if strictEq va vb then 0
  else if va.isNullish then 1
  else if vb.isNullish then -1
  else (if jsGt E va vb then 1 else -1) * sortDir

/-- `Array.prototype.sort(cmp)`: stable insertion sort, `a` stays before `b` when `cmp a b ≤ 0`. -/
def arraySort {α : Type} (cmp : α → α → Int) (l : List α) : List α :=
  l.insertionSort (fun a b => cmp a b ≤ 0)

/-- The sort stage: `rows.sort((a,b) => ...)`. -/
def sortStage (E : JSEngine) (sortKey : String) (sortDir : Int) (rows : List Row) : List Row :=
  arraySort (compareRows E sortKey sortDir) rows

/-! ## Strings -/

/-- ECMAScript `WhiteSpace` and `LineTerminator` code points, the ones `trim` strips. -/
def isWhiteSpace (c : Char) : Bool :=
  decide (c.toNat ∈ [0x09, 0x0A, 0x0B, 0x0C, 0x0D, 0x20, 0xA0, 0x1680, 0x2028, 0x2029,
    0x202F, 0x205F, 0x3000, 0xFEFF]) || (decide (0x2000 ≤ c.toNat) && decide (c.toNat ≤ 0x200A))

/-- `String.prototype.trim`. -/
def trim (s : String) : String :=
  ⟨(s.data.dropWhile isWhiteSpace).rdropWhile isWhiteSpace⟩

/-- `String.prototype.toLowerCase`, character by character. -/
def toLowerCase (s : String) : String := ⟨s.data.map Char.toLower⟩

/-- `s.includes(q)`: `q` occurs in `s` as a contiguous substring. -/
def includes (s q : String) : Bool := decide (q.data <:+: s.data)

/-! ## `fmt` -/

/-- `Number.prototype.toFixed(d)` for `0 ≤ d ≤ 100`: round half up on the magnitude,
exactly `d` fractional digits; values of magnitude `10^21` or more fall back to `ToString`. -/
def toFixed (E : JSEngine) (x : JSNum) (d : Nat) : String :=
  match x with
  | .nan => "NaN"
  | .posInf => "Infinity"
  | .negInf => "-Infinity"
  | .fin q =>
    if 10 ^ 21 * q.den ≤ q.num.natAbs then E.numberToString q
    else
      let n : Nat := (2 * q.num.natAbs * 10 ^ d + q.den) / (2 * q.den)
      let sign : String := if q.num < 0 then "-" else ""
      let ds : List Char := (Nat.repr n).data
      if d = 0 then sign ++ String.mk ds
      else
        let padded := List.replicate (d + 1 - ds.length) '0' ++ ds
        let k := padded.length - d
        sign ++ String.mk (padded.take k) ++ "." ++ String.mk (padded.drop k)

/-- Function `fmt(n, d=2)` (app.js lines 5-8). -/
def fmt (E : JSEngine) (n : JSVal) (d : Nat := 2) : String :=
  if n = .null ∨ n = .undefined ∨ n = .num .nan then ""
  else toFixed E (toNumber E n) d

/-! ## Page state -/

/-- A table cell that carries a `class` attribute. -/
structure Cell where
  cls : String
  text : String
  deriving DecidableEq

/-- One `<tr>` written by `render`: the ten `<td>` contents, in column order. -/
structure TableRow where
  score : String
  ticker : String
  company : String
  sector : String
  price : String
  rsi : String
  ma50 : String
  p_vs_ma50 : Cell
  ret3m : Cell
  relvol : Cell
  deriving DecidableEq

/-- The global `raw`: an array of rows, or (after a malformed payload) some other truthy value. -/
inductive RawVal where
  | array (rows : List Row)
  | nonArray
  deriving DecidableEq

/-- Globals of app.js together with the DOM nodes it reads and writes. -/
structure State where
  raw : RawVal
  sortKey : String
  sortDir : Int
  /-- `#search`.value -/
  search : String
  /-- `#sector`.value -/
  sector : String
  /-- `#onlyPass`.checked -/
  onlyPass : Bool
  /-- `#lastUpdate`.textContent -/
  lastUpdate : String
  /-- `#sector`.innerHTML -/
  sectorOptions : String
  /-- rows of `#tbl tbody` -/
  tbody : List TableRow
  deriving DecidableEq

/-- Script start: the three globals are initialised, the page is whatever the markup gives. -/
def initialState (page : State) : State :=
  { page with raw := .array [], sortKey := "score", sortDir := -1 }

/-! ## `render` -/

/-- `(v||'').toLowerCase()`: a `TypeError` when `v` is truthy and not a string. -/
def lowerOf (v : JSVal) : Except JSError String :=
  match jsOr v (.str "") with
  | .str s => .ok (toLowerCase s)
  | _ => .error .typeError

/-- The text-filter callback (app.js lines 18-21); `||` short-circuits. -/
def textMatch (q : String) (r : Row) : Except JSError Bool :=
  match lowerOf (r.get "ticker") with
  | .error e => .error e
  | .ok t =>
    if includes t q then .ok true
    else
      match lowerOf (r.get "company") with
      | .error e => .error e
      | .ok c => .ok (includes c q)

/-- `Array.prototype.filter` with a callback that may throw: the first throw aborts. -/
def filterExcept (p : Row → Except JSError Bool) : List Row → Except JSError (List Row)
  | [] => .ok []
  | r :: rs =>
    match p r with
    | .error e => .error e
    | .ok b =>
      match filterExcept p rs with
      | .error e => .error e
      | .ok l => .ok (if b then r :: l else l)

/-- The query `q` of `render` (line 11). -/
def queryOf (st : State) : String := toLowerCase (trim st.search)

/-- Stage 1, `if (q) rows = rows.filter(...)`. -/
def textStage (q : String) (rows : List Row) : Except JSError (List Row) :=
  if q ≠ "" then filterExcept (textMatch q) rows else .ok rows

/-- Stage 2, `if (sec && sec !== 'ALL') rows = rows.filter(r => r.sector === sec)`. -/
def sectorStage (sec : String) (rows : List Row) : List Row :=
  if sec ≠ "" ∧ sec ≠ "ALL" then rows.filter (fun r => strictEq (r.get "sector") (.str sec))
  else rows

/-- Stage 3, `if (onlyPass) rows = rows.filter(r => r.pass === true)`. -/
def passStage (onlyPass : Bool) (rows : List Row) : List Row :=
  if onlyPass then rows.filter (fun r => strictEq (r.get "pass") (.bool true)) else rows

/-- The three filters of `render` (lines 15-28) applied to the array `rows`. -/
def filterRows (st : State) (rows : List Row) : Except JSError (List Row) :=
  match textStage (queryOf st) rows with
  | .error e => .error e
  | .ok rows1 => .ok (passStage st.onlyPass (sectorStage st.sector rows1))

/-- The literal `1.2` of line 50: the double it denotes, `5404319552844595 / 2^52`. -/
def relvolThreshold : ℚ :=
  Rat.mk' 5404319552844595 4503599627370496 (by decide) (by decide)

/-- The class `x >= 0 ? 'good' : 'bad'`. -/
def goodBad (b : Bool) : String := if b then "good" else "bad"

/-- The template of one table row (lines 40-51). -/
def projectRow (E : JSEngine) (r : Row) : TableRow where
  score := fmt E (r.get "score") 0
  ticker := toStr E (r.get "ticker")
  company := toStr E (jsOr (r.get "company") (.str ""))
  sector := toStr E (jsOr (r.get "sector") (.str ""))
  price := fmt E (r.get "price")
  rsi := fmt E (r.get "rsi")
  ma50 := fmt E (r.get "ma50")
  p_vs_ma50 := ⟨goodBad (jsGe E (r.get "p_vs_ma50") (.ofRat 0)), fmt E (r.get "p_vs_ma50") ++ "%"⟩
  ret3m := ⟨goodBad (jsGe E (r.get "ret3m") (.ofRat 0)), fmt E (r.get "ret3m") ++ "%"⟩
  relvol := ⟨goodBad (jsGe E (jsOr (r.get "relvol") (.ofRat 0)) (.ofRat relvolThreshold)),
    fmt E (r.get "relvol")⟩

/-- The rows `render` is about to project, in display order (lines 11-36). -/
def renderRows (E : JSEngine) (st : State) : Except JSError (List Row) :=
  match st.raw with
  | .nonArray => .error .typeError
  | .array rows =>
    match filterRows st rows with
    | .error e => .error e
    | .ok rows3 => .ok (sortStage E st.sortKey st.sortDir rows3)

/-- Function `render()`: on success the table body is replaced, on a throw nothing is written. -/
def render (E : JSEngine) (st : State) : Except JSError State :=
  match renderRows E st with
  | .error e => .error e
  | .ok rows => .ok { st with tbody := rows.map (projectRow E) }

/-- A handler that ends in `render()`: an exception escapes to the event loop and the
state written so far stays. -/
def renderOrKeep (E : JSEngine) (st : State) : State :=
  match render E st with
  | .ok st1 => st1
  | .error _ => st

/-! ## `render` over an arbitrary runtime

The definitions above fix two library routines more than the language does:
`String.prototype.toLowerCase` works on all of Unicode and depends on context (a capital
sigma at the end of a word becomes a final sigma), and `Array.prototype.sort` leaves the
order implementation-defined when the comparator is not consistent.  The same pipeline is
therefore given once more with the two routines as parameters.
-/

/-- The two library routines `render` relies on. -/
structure Runtime where
  /-- `String.prototype.toLowerCase` -/
  toLowerCase : String → String
  /-- `Array.prototype.sort` called with a comparator -/
  sort : (Row → Row → Int) → List Row → List Row

/-- The runtime of the reference definitions: ASCII lower-casing and the insertion sort. -/
def referenceRuntime : Runtime := ⟨toLowerCase, arraySort⟩

/-- `(v||'').toLowerCase()`: a `TypeError` when `v` is truthy and not a string. -/
def lowerOfIn (R : Runtime) (v : JSVal) : Except JSError String :=
  match jsOr v (.str "") with
  | .str s => .ok (R.toLowerCase s)
  | _ => .error .typeError

/-- The text-filter callback (app.js lines 18-21); `||` short-circuits. -/
def textMatchIn (R : Runtime) (q : String) (r : Row) : Except JSError Bool :=
  match lowerOfIn R (r.get "ticker") with
  | .error e => .error e
  | .ok t =>
    if includes t q then .ok true
    else
      match lowerOfIn R (r.get "company") with
      | .error e => .error e
      | .ok c => .ok (includes c q)

/-- The query `q` of `render` (line 11). -/
def queryIn (R : Runtime) (st : State) : String := R.toLowerCase (trim st.search)

/-- Stage 1, `if (q) rows = rows.filter(...)`. -/
def textStageIn (R : Runtime) (q : String) (rows : List Row) : Except JSError (List Row) :=
  if q ≠ "" then filterExcept (textMatchIn R q) rows else .ok rows

/-- The three filters of `render` (lines 15-28) applied to the array `rows`. -/
def filterRowsIn (R : Runtime) (st : State) (rows : List Row) : Except JSError (List Row) :=
  match textStageIn R (queryIn R st) rows with
  | .error e => .error e
  | .ok rows1 => .ok (passStage st.onlyPass (sectorStage st.sector rows1))

/-- The rows `render` is about to project, in display order (lines 11-36). -/
def renderRowsIn (R : Runtime) (E : JSEngine) (st : State) : Except JSError (List Row) :=
  match st.raw with
  | .nonArray => .error .typeError
  | .array rows =>
    match filterRowsIn R st rows with
    | .error e => .error e
    | .ok rows3 => .ok (R.sort (compareRows E st.sortKey st.sortDir) rows3)

/-- Function `render()`: on success the table body is replaced, on a throw nothing is written. -/
def renderIn (R : Runtime) (E : JSEngine) (st : State) : Except JSError State :=
  match renderRowsIn R E st with
  | .error e => .error e
  | .ok rows => .ok { st with tbody := rows.map (projectRow E) }

/-- A handler that ends in `render()`: an exception escapes to the event loop and the
state written so far stays. -/
def renderOrKeepIn (R : Runtime) (E : JSEngine) (st : State) : State :=
  match renderIn R E st with
  | .ok st1 => st1
  | .error _ => st

/-- The click listener (app.js lines 69-76) for a click on the header cell of `key`. -/
def headerClickIn (R : Runtime) (E : JSEngine) (key : String) (st : State) : State :=
  let st1 : State :=
    if st.sortKey = key then { st with sortDir := st.sortDir * -1 }
    else { st with sortKey := key, sortDir := -1 }
  renderOrKeepIn R E st1

/-- A consistent comparator on the elements of `l`, as ECMAScript defines it: an element
compares equal to itself, swapping the arguments swaps the sign, and `≤` is transitive. -/
def ConsistentOn {α : Type} (cmp : α → α → Int) (l : List α) : Prop :=
  (∀ a ∈ l, cmp a a = 0) ∧
  (∀ a ∈ l, ∀ b ∈ l, (cmp a b < 0 ↔ 0 < cmp b a)) ∧
  (∀ a ∈ l, ∀ b ∈ l, ∀ c ∈ l, cmp a b ≤ 0 → cmp b c ≤ 0 → cmp a c ≤ 0)

/-- What the language guarantees about the two routines: the empty string lower-cases to
itself; `sort` returns a rearrangement of its input and, when the comparator is consistent
on the elements, the stable sorted order, which is what `arraySort` computes. -/
def Conforms (R : Runtime) : Prop :=
  R.toLowerCase "" = "" ∧
  (∀ (cmp : Row → Row → Int) (l : List Row), (R.sort cmp l).Perm l) ∧
  (∀ (cmp : Row → Row → Int) (l : List Row), ConsistentOn cmp l → R.sort cmp l = arraySort cmp l)

/-! ## The sort of the V8 engine on a short array -/

/-- Run detection of V8's TimSort: how many elements after `prev` continue the run. -/
def extendRun {α : Type} (cmp : α → α → Int) (descending : Bool) : α → List α → Nat
  | _, [] => 0
  | prev, x :: xs =>
    let order := cmp x prev
    if (if descending then decide (order < 0) else decide (0 ≤ order)) then
      extendRun cmp descending x xs + 1
    else 0

/-- The binary search of V8's binary insertion: the position for `pivot` in `sorted`. -/
def searchPos {α : Type} (cmp : α → α → Int) (pivot : α) (sorted : List α) :
    Nat → Nat → Nat → Nat
  | 0, left, _ => left
  | fuel + 1, left, right =>
    if left < right then
      let mid := left + (right - left) / 2
      match sorted.get? mid with
      | some x =>
        if cmp pivot x < 0 then searchPos cmp pivot sorted fuel left mid
        else searchPos cmp pivot sorted fuel (mid + 1) right
      | none => left
    else left

/-- One step of V8's binary insertion sort: `pivot` is put at the position found. -/
def binaryInsert {α : Type} (cmp : α → α → Int) (sorted : List α) (pivot : α) : List α :=
  let pos := searchPos cmp pivot sorted (sorted.length + 1) 0 sorted.length
  sorted.take pos ++ pivot :: sorted.drop pos

/-- V8's `Array.prototype.sort` on an array of fewer than 64 elements: the initial run is
found (a strictly descending one is reversed) and the remaining elements are inserted one by
one by binary search. -/
def v8SortShort {α : Type} (cmp : α → α → Int) : List α → List α
  | [] => []
  | [a] => [a]
  | a :: b :: rest =>
    let descending := decide (cmp b a < 0)
    let k := extendRun cmp descending b rest + 2
    let run := (a :: b :: rest).take k
    let start := if descending then run.reverse else run
    ((a :: b :: rest).drop k).foldl (binaryInsert cmp) start

/-- Stable insertion from the left, what one step of a binary insertion sort amounts to on
a sorted list: `p` goes after every element that is not greater. -/
def insertAfter {α : Type} (cmp : α → α → Int) (p : α) : List α → List α
  | [] => [p]
  | x :: t => if cmp p x < 0 then p :: x :: t else x :: insertAfter cmp p t

/-- ASCII lower-casing with V8's sort for short arrays; it conforms to the language, like
the reference runtime. -/
def v8Runtime : Runtime := ⟨toLowerCase, v8SortShort⟩

/-! ## Lower-casing with the Greek final sigma -/

/-- Letters with a case, among ASCII and the Greek alphabet. -/
def isCasedLetter (c : Char) : Bool :=
  c.isAlpha || (decide (0x391 ≤ c.toNat) && decide (c.toNat ≤ 0x3A9)) ||
    (decide (0x3B1 ≤ c.toNat) && decide (c.toNat ≤ 0x3C9))

/-- Lower-casing of ASCII and Greek text: a capital sigma that ends a word (a cased letter
before it, none after it) becomes the final sigma `U+03C2`, any other capital its small
letter. -/
def greekLower : Bool → List Char → List Char
  | _, [] => []
  | afterLetter, c :: cs =>
    let beforeLetter := match cs with
      | d :: _ => isCasedLetter d
      | [] => false
    let lowered :=
      if c.toNat = 0x3A3 then
        (if afterLetter && !beforeLetter then Char.ofNat 0x3C2 else Char.ofNat 0x3C3)
      else if 0x391 ≤ c.toNat ∧ c.toNat ≤ 0x3A9 then Char.ofNat (c.toNat + 0x20)
      else c.toLower
    lowered :: greekLower (isCasedLetter c) cs

/-- Lower-casing that knows the Greek alphabet, with the insertion sort. -/
def greekRuntime : Runtime := ⟨fun s => ⟨greekLower false s.data⟩, arraySort⟩

/-! ## `load` -/

/-- The value of `payload.rows`. -/
inductive PayloadRows where
  /-- a primitive, `undefined` when the property is absent -/
  | prim (v : JSVal)
  | array (rows : List Row)
  /-- a non-array object -/
  | object
  deriving DecidableEq

/-- A parsed payload that is not `null`.  A top-level primitive or array has neither
property and behaves as `⟨undefined, prim undefined⟩`. -/
structure Payload where
  updated_at : JSVal
  rows : PayloadRows
  deriving DecidableEq

/-- What `res.json()` does with the body of a response. -/
inductive Body where
  /-- not valid JSON: the promise rejects with a `SyntaxError` -/
  | invalid
  /-- the JSON text `null` -/
  | jsonNull
  | json (p : Payload)
  deriving DecidableEq

/-- A response as `load` sees it. -/
structure Response where
  body : Body
  deriving DecidableEq

/-- Final state of an async function and the error it rejected with, if any. -/
structure Outcome where
  state : State
  error : Option JSError
  deriving DecidableEq

/-- `new Set(values)` then `Array.from`: first occurrences, in insertion order. -/
def setFrom : List JSVal → List JSVal
  | [] => []
  | v :: vs => v :: (setFrom vs).filter (fun w => decide (w ≠ v))

/-- The default comparator of `Array.prototype.sort()`: compare the `ToString` images. -/
def defaultCompare (E : JSEngine) (x y : JSVal) : Int :=
  if strLt (toStr E x) (toStr E y) then -1
  else if strLt (toStr E y) (toStr E x) then 1
  else 0

/-- Line 61: `Array.from(new Set(raw.map(r => r.sector).filter(Boolean))).sort()`. -/
def deriveSectors (E : JSEngine) (rows : List Row) : List JSVal :=
  arraySort (defaultCompare E)
    (setFrom ((rows.map (fun r => r.get "sector")).filter JSVal.truthy))

/-- The markup of the first entry of the drop-down (line 63). -/
def allOption : String := "<option value=\"ALL\">Todos los sectores</option>"

/-- The template of line 64 for one sector: its text is pasted as it is, once as the
`value` attribute and once as the content. -/
def optionMarkup (s : String) : String :=
  "<option value=\"" ++ s ++ "\">" ++ s ++ "</option>"

/-- Lines 63-64: the markup assigned to `#sector`.innerHTML. -/
def sectorOptionsOf (E : JSEngine) (rows : List Row) : String :=
  String.join ([allOption] ++ (deriveSectors E rows).map (fun s => optionMarkup (toStr E s)))

/-- Lines 61-66 once `raw` is an array: rebuild the drop-down (its value falls back to the
first option) and render. -/
def finishLoad (E : JSEngine) (rows : List Row) (st : State) : Outcome :=
  let st2 : State :=
    { st with raw := .array rows, sectorOptions := sectorOptionsOf E rows, sector := "ALL" }
  match render E st2 with
  | .ok st3 => ⟨st3, none⟩
  | .error e => ⟨st2, some e⟩

/-- Function `load()` (lines 55-67), given how the `fetch` settled (`none`: it rejected). -/
def load (E : JSEngine) (fetched : Option Response) (st : State) : Outcome :=
  match fetched with
  | none => ⟨st, some .networkError⟩
  | some res =>
    match res.body with
    | .invalid => ⟨st, some .syntaxError⟩
    | .jsonNull => ⟨st, some .typeError⟩
    | .json p =>
      let st1 : State :=
        { st with lastUpdate := "Actualización: " ++ toStr E (jsOr p.updated_at (.str "—")) }
      match p.rows with
      | .array rows => finishLoad E rows st1
      | .prim v =>
        if v.truthy then ⟨{ st1 with raw := .nonArray }, some .typeError⟩
        else finishLoad E [] st1
      | .object => ⟨{ st1 with raw := .nonArray }, some .typeError⟩

/-- The text of the `.catch` handler on line 84. -/
def loadErrorText : String := "Error al cargar datos."

/-- Line 84: `load().catch(() => lastUpdate.textContent = 'Error al cargar datos.')`. -/
def pageStart (E : JSEngine) (fetched : Option Response) (st : State) : State :=
  let o := load E fetched st
  match o.error with
  | none => o.state
  | some _ => { o.state with lastUpdate := loadErrorText }

/-- Line 83: the refresh button calls `load` directly; a rejection is not handled. -/
def refresh (E : JSEngine) (fetched : Option Response) (st : State) : State :=
  (load E fetched st).state

/-! ## Event handlers -/

/-- The document `click` listener (lines 69-76) for a click inside `th[data-sort=key]`. -/
def headerClick (E : JSEngine) (key : String) (st : State) : State :=
  let st1 : State :=
    if st.sortKey = key then { st with sortDir := st.sortDir * -1 }
    else { st with sortKey := key, sortDir := -1 }
  renderOrKeep E st1

/-- What can happen to the page after start-up. -/
inductive Event where
  /-- a click inside a header cell carrying `data-sort` -/
  | headerClick (key : String)
  /-- a click anywhere else: the listener returns at once -/
  | otherClick
  | searchInput (text : String)
  | sectorChange (value : String)
  | passToggle (checked : Bool)
  /-- a click on the refresh button, with the way its `fetch` settles -/
  | refresh (fetched : Option Response)

/-- One event, handled to completion. -/
def step (E : JSEngine) (st : State) : Event → State
  | .headerClick key => headerClick E key st
  | .otherClick => st
  | .searchInput text => renderOrKeep E { st with search := text }
  | .sectorChange value => renderOrKeep E { st with sector := value }
  | .passToggle checked => renderOrKeep E { st with onlyPass := checked }
  | .refresh fetched => refresh E fetched st

/-- A whole session: start-up on some page, then a sequence of events. -/
def run (E : JSEngine) (page : State) (first : Option Response) (events : List Event) : State :=
  events.foldl (step E) (pageStart E first (initialState page))

/-! ## The offline cache worker (sw.js) -/

/-- The named cache store: request URL to stored response. -/
abbrev CacheStore := List (String × Response)

/-- The network as the worker sees it: `none` when the fetch fails. -/
abbrev Network := String → Option Response

/-- The asset list pre-cached at install (sw.js line 2). -/
def ASSETS : List String :=
  ["./", "./index.html", "./styles.css", "./app.js", "./manifest.json",
    "./data/sp500_momentum.json"]

/-- The resource `load` asks for. -/
def dataUrl : String := "./data/sp500_momentum.json"

/-- `cache.put(request, response)`: the entry for the URL is replaced. -/
def cachePut (c : CacheStore) (url : String) (res : Response) : CacheStore :=
  (c.filter (fun e => decide (e.1 ≠ url))) ++ [(url, res)]

/-- `cache.addAll(urls)`: every asset is fetched; one failure rejects the whole call. -/
def addAll (net : Network) : List String → CacheStore → Option CacheStore
  | [], c => some c
  | u :: us, c =>
    match net u with
    | none => none
    | some res => addAll net us (cachePut c u res)

/-- The `install` handler (sw.js line 3). -/
def install (net : Network) : Option CacheStore := addAll net ASSETS []

/-- The `fetch` handler (sw.js lines 4-10): the response handed to the page (`none`: the
request fails) and the cache store afterwards. -/
def swFetch (c : CacheStore) (net : Network) (url : String) : Option Response × CacheStore :=
  match c.lookup url with
  | some r => (some r, c)
  | none =>
    match net url with
    | some res => (some res, cachePut c url res)
    | none => (none, c)

/-- Function `load()` on a page controlled by the worker: its `fetch` goes through `swFetch`. -/
def loadViaWorker (E : JSEngine) (c : CacheStore) (net : Network) (st : State) :
    Outcome × CacheStore :=
  let r := swFetch c net dataUrl
  (load E r.1 st, r.2)

/-! # Auxiliary notions used in the statements -/

/-- A value the text filter can lower-case: a string, or a falsy value (which `||''` turns
into the empty string). -/
def Textual (v : JSVal) : Prop := v.truthy = false ∨ ∃ s, v = .str s

/-- The search text matches the string value `v` when case is ignored the way the script
does it: the trimmed, lower-cased search text occurs in the lower-cased `v`. -/
def MatchesQuery (R : Runtime) (search : String) (v : JSVal) : Prop :=
  ∃ s, v = .str s ∧ (R.toLowerCase (trim search)).data <:+: (R.toLowerCase s).data

/-- The operator `>` strictly orders the `key` values of the rows of `l`: no value is
`null` or `undefined`, of any two rows of `l` one has a value `>` that of the other, and
`>` is transitive on these values. -/
def StrictlyOrdered (E : JSEngine) (key : String) (l : List Row) : Prop :=
  (∀ r ∈ l, (r.get key).isNullish = false) ∧
  l.Pairwise (fun a b =>
    jsGt E (a.get key) (b.get key) = true ∨ jsGt E (b.get key) (a.get key) = true) ∧
  (∀ a ∈ l, ∀ b ∈ l, ∀ c ∈ l, jsGt E (a.get key) (b.get key) = true →
    jsGt E (b.get key) (c.get key) = true → jsGt E (a.get key) (c.get key) = true)

/-- A numeric field with nothing to show: `null`, `undefined` (also an absent property) or
`NaN`. -/
def Missing (v : JSVal) : Prop := v = .null ∨ v = .undefined ∨ v = .num .nan

/-- A load that fails before `load` has written anything: the fetch rejects, the body is
not valid JSON, or the payload is `null`. -/
def FailsEarly (fetched : Option Response) : Prop :=
  fetched = none ∨ fetched = some ⟨.invalid⟩ ∨ fetched = some ⟨.jsonNull⟩

/-- What the HTML tokenizer takes as the value of the first double-quoted attribute in a
piece of markup: the characters between the first quotation mark and the next one.
Character references (`&...;`) are not modelled. -/
def attributeValue (markup : String) : String :=
  ⟨((markup.data.dropWhile (fun c => decide (c ≠ '"'))).drop 1).takeWhile
    (fun c => decide (c ≠ '"'))⟩

/-- A text free of the characters that HTML treats as markup (quotation mark, ampersand,
less-than sign) and of control characters. -/
def MarkupSafe (s : String) : Prop :=
  ∀ c ∈ s.data, c ≠ '"' ∧ c ≠ '&' ∧ c ≠ '<' ∧ 0x20 ≤ c.toNat

/-! # Sample data used by the concrete evaluations -/

/-- Digits of the fractional part `r / d`, at most `fuel` of them. -/
def fracDigits : Nat → Nat → Nat → List Char
  | 0, _, _ => []
  | fuel + 1, r, d =>
    if r = 0 then [] else Nat.digitChar (10 * r / d) :: fracDigits fuel (10 * r % d) d

/-- A decimal integer literal, `none` for anything else. -/
def parseDigits (cs : List Char) : Option Nat :=
  if cs ≠ [] ∧ cs.all Char.isDigit = true then
    some (cs.foldl (fun n c => 10 * n + (c.toNat - 48)) 0)
  else none

/-- A simple engine for concrete evaluations: signed decimal integers parse (the empty
string is `0`), everything else is `NaN`; numbers print in positional decimal. -/
def sampleEngine : JSEngine where
  stringToNumber := fun s =>
    match (trim s).data with
    | [] => .fin 0
    | '-' :: cs => match parseDigits cs with
      | some n => .fin (-(n : ℚ))
      | none => .nan
    | cs => match parseDigits cs with
      | some n => .fin n
      | none => .nan
  numberToString := fun q =>
    let n := q.num.natAbs
    let frac := fracDigits 17 (n % q.den) q.den
    (if q.num < 0 then "-" else "") ++ Nat.repr (n / q.den) ++
      (if frac = [] then "" else "." ++ String.mk frac)

/-- A page whose controls are untouched: empty search box, no sector chosen, toggle off. -/
def blankPage : State where
  raw := .array []
  sortKey := "score"
  sortDir := -1
  search := ""
  sector := ""
  onlyPass := false
  lastUpdate := ""
  sectorOptions := ""
  tbody := []

/-- Row `{ticker:"AAA", score:10, pass:true}`. -/
def rowAAA : Row := [("ticker", .str "AAA"), ("score", .ofRat 10), ("pass", .bool true)]

/-- Row `{ticker:"BBB", score:20, pass:false}`. -/
def rowBBB : Row := [("ticker", .str "BBB"), ("score", .ofRat 20), ("pass", .bool false)]

/-- Row `{ticker:"CCC", score:10}`: same score as `rowAAA`. -/
def rowCCC : Row := [("ticker", .str "CCC"), ("score", .ofRat 10)]

/-- Three loaded rows, two of them with the same score; controls untouched. -/
def threeRowState : State := { blankPage with raw := .array [rowAAA, rowBBB, rowCCC] }

/-- Two loaded rows with the same score. -/
def tiedState : State := { blankPage with raw := .array [rowAAA, rowCCC] }

/-- Two loaded rows with different scores. -/
def twoRowState : State := { blankPage with raw := .array [rowAAA, rowBBB] }

/-- Row `{ticker:5, company:"Apple"}`: the ticker is a number. -/
def rowNumericTicker : Row := [("ticker", .ofRat 5), ("company", .str "Apple")]

/-- One loaded row whose ticker is a number, and the search text `app`. -/
def numericTickerState : State :=
  { blankPage with raw := .array [rowNumericTicker], search := "app" }

/-- Rows AAA and BBB loaded, the search text `aA`. -/
def searchState : State := { twoRowState with search := "aA" }

/-- Rows AAA and BBB loaded, the pass-only toggle on. -/
def passOnlyState : State := { twoRowState with onlyPass := true }

/-- A data file with rows AAA and BBB, stamped 2024-01-01. -/
def januaryResponse : Response :=
  ⟨.json ⟨.str "2024-01-01", .array [rowAAA, rowBBB]⟩⟩

/-- A newer data file with the single row CCC, stamped 2024-02-01. -/
def februaryResponse : Response :=
  ⟨.json ⟨.str "2024-02-01", .array [rowCCC]⟩⟩

/-- A payload `{"updated_at":"2024-02-01","rows":5}`: `rows` is not an array. -/
def rowsNotArrayResponse : Response :=
  ⟨.json ⟨.str "2024-02-01", .prim (.ofRat 5)⟩⟩

/-- The page after a successful first load of the January file. -/
def loadedState : State := pageStart sampleEngine (some januaryResponse) (initialState blankPage)

/-- The network while the worker installs: every asset resolves, the data file is January's. -/
def januaryNet : Network := fun _ => some januaryResponse

/-- The network later on: the data file is February's. -/
def februaryNet : Network := fun _ => some februaryResponse

/-- Row `{score:7, price:"abc"}`: no ticker, a non-numeric price, no percentage fields. -/
def rowNoTicker : Row := [("score", .ofRat 7), ("price", .str "abc")]

/-- The row without ticker loaded, controls untouched. -/
def noTickerState : State := { blankPage with raw := .array [rowNoTicker] }

/-- Rows whose sectors are Tech, Energy, Tech. -/
def sectorRows : List Row :=
  [[("sector", .str "Tech")], [("sector", .str "Energy")], [("sector", .str "Tech")]]

/-- A defined number: a Number value other than `NaN` (which a JSON payload cannot hold). -/
def IsNumber (v : JSVal) : Prop := ∃ n, v = .num n ∧ n ≠ .nan

/-- The nearest natural number to `x ≥ 0`, a tie going up. -/
def roundHalfUp (x : ℚ) : Nat := ⌊x + 1 / 2⌋₊

/-- The `d` low-order decimal digits of `m`, most significant first. -/
def fractionDigits (m d : Nat) : List Char :=
  (List.range d).reverse.map (fun i => Nat.digitChar (m / 10 ^ i % 10))

/-- Fixed-point notation with exactly `d` fractional digits, as the specification words it:
the magnitude of `q` is rounded to the nearest multiple of `10^-d`; the numeral is a minus
sign when `q` is negative, the integer part in decimal and, when `d > 0`, a point followed
by the `d` fractional digits. -/
def fixedPoint (q : ℚ) (d : Nat) : String :=
  let m := roundHalfUp (|q| * 10 ^ d)
  (if q < 0 then "-" else "") ++ Nat.repr (m / 10 ^ d) ++
    (if d = 0 then "" else "." ++ String.mk (fractionDigits m d))

/-- The number `3.14159`. -/
def piApprox : ℚ := Rat.mk' 314159 100000 (by decide) (by decide)

/-- The value of a field with a missing (`null` or `undefined`) value treated as 0, as the
specification words the relative-volume rule. -/
def missingAsZero (v : JSVal) : JSVal := if v.isNullish then .ofRat 0 else v

/-- The number `1.19` as JSON parsing yields it: the double `2679641778285445 / 2^51`. -/
def justBelowThreshold : ℚ :=
  Rat.mk' 2679641778285445 2251799813685248 (by decide) (by decide)

/-- Row `{relvol: 1.19}`. -/
def rowRelvolLow : Row := [("relvol", .ofRat justBelowThreshold)]

/-- Row `{relvol: 1.2}`. -/
def rowRelvolAt : Row := [("relvol", .ofRat relvolThreshold)]

/-- Row `{ticker:"ZZZ"}`: no relvol and no percentage fields. -/
def rowBare : Row := [("ticker", .str "ZZZ")]

/-- Row `{p_vs_ma50: null, ret3m: null}`. -/
def rowNullPercent : Row := [("p_vs_ma50", .null), ("ret3m", .null)]

/-- Row `{p_vs_ma50: -1, ret3m: 3}`. -/
def rowPercent : Row := [("p_vs_ma50", .ofRat (-1)), ("ret3m", .ofRat 3)]

/-- One run of the worker's `fetch` handler, with the network requests it issued. -/
structure HandlerRun where
  /-- the response handed to the page, `none` when the request fails -/
  response : Option Response
  /-- the cache store afterwards -/
  cache : CacheStore
  /-- the URLs passed to `fetch`, in order -/
  fetched : List String
  deriving DecidableEq

/-- The `fetch` handler (sw.js lines 4-10) with its network traffic recorded: `fetch` is
called only when `caches.match` finds nothing. -/
def fetchHandler (c : CacheStore) (net : Network) (url : String) : HandlerRun :=
  match c.lookup url with
  | some r => ⟨some r, c, []⟩
  | none =>
    match net url with
    | some res => ⟨some res, cachePut c url res, [url]⟩
    | none => ⟨none, c, [url]⟩

/-- A cache store holding January's data file. -/
def januaryCache : CacheStore := [(dataUrl, januaryResponse)]

/-- A row whose sector is `Oil "Gas"`. -/
def rowQuotedSector : Row := [("sector", .str "Oil \"Gas\"")]

/-- Row `{ticker:"T0", score:3}`. -/
def rowT0 : Row := [("ticker", .str "T0"), ("score", .ofRat 3)]

/-- Row `{ticker:"T1", score:"b"}`: the score is a string. -/
def rowT1 : Row := [("ticker", .str "T1"), ("score", .str "b")]

/-- Row `{ticker:"T2", score:3}`: same score as `rowT0`. -/
def rowT2 : Row := [("ticker", .str "T2"), ("score", .ofRat 3)]

/-- Scores `3, "b", 3` loaded, sorted by score ascending. -/
def mixedScoreState : State :=
  { blankPage with raw := .array [rowT0, rowT1, rowT2], sortDir := 1 }

/-- Row `{ticker:"GR", company:"ΟΣΟ"}`: the company is the three Greek capitals omicron,
sigma, omicron. -/
def rowGreek : Row := [("ticker", .str "GR"), ("company", .str "ΟΣΟ")]

/-- One loaded row with a Greek company name, and the search text `ΟΣ` (capital omicron,
capital sigma), the first two characters of that name. -/
def greekState : State :=
  { blankPage with raw := .array [rowGreek], search := "ΟΣ" }

/-- Row `{ticker:"NUL", score:null}`. -/
def rowNullScore : Row := [("ticker", .str "NUL"), ("score", .null)]

/-- Rows AAA (score 10) and NUL (score `null`) loaded. -/
def nullScoreState : State := { blankPage with raw := .array [rowAAA, rowNullScore] }

/-- Row `{ticker:"S2", score:2}`. -/
def rowS2 : Row := [("ticker", .str "S2"), ("score", .ofRat 2)]

/-- Row `{ticker:"S3", score:3}`. -/
def rowS3 : Row := [("ticker", .str "S3"), ("score", .ofRat 3)]

/-- Row `{ticker:"SX", score:"n/a"}`: the score is a string that is no numeral. -/
def rowSX : Row := [("ticker", .str "SX"), ("score", .str "n/a")]

/-- Row `{ticker:"S1", score:1}`. -/
def rowS1 : Row := [("ticker", .str "S1"), ("score", .ofRat 1)]

/-- Row `{ticker:"S4", score:4}`. -/
def rowS4 : Row := [("ticker", .str "S4"), ("score", .ofRat 4)]

/-- Five rows with the scores `2, 3, "n/a", 1, 4` loaded. -/
def unorderedState : State :=
  { blankPage with raw := .array [rowS2, rowS3, rowSX, rowS1, rowS4] }

/-! # Theorems -/

/-! ## Facts about values and the comparator -/

theorem strictEq_iff (a b : JSVal) : strictEq a b = true ↔ a = b ∧ a ≠ .num .nan := by
  cases a with
  | num x => cases b with
    | num y => cases x <;> cases y <;> simp [strictEq]
    | _ => simp [strictEq]
  | _ => cases b <;> simp [strictEq]

theorem strictEq_of_both {a b v : JSVal} (ha : strictEq a v = true) (hb : strictEq b v = true) :
    strictEq a b = true := by
  rw [strictEq_iff] at *
  exact ⟨ha.1.trans hb.1.symm, ha.2⟩

theorem compareRows_of_strictEq (E : JSEngine) (key : String) (dir : Int) {a b : Row}
    (h : strictEq (a.get key) (b.get key) = true) : compareRows E key dir a b = 0 := by
  simp [compareRows, h]

theorem nullish_of_compareRows_le (E : JSEngine) (key : String) (dir : Int) (a b : Row)
    (h : compareRows E key dir a b ≤ 0) (ha : (a.get key).isNullish = true) :
    (b.get key).isNullish = true := by
  unfold compareRows at h
  by_cases he : strictEq (a.get key) (b.get key) = true
  · rw [strictEq_iff] at he
    rw [← he.1]; exact ha
  · simp [he, ha] at h

theorem nullish_of_compareRows_gt (E : JSEngine) (key : String) (dir : Int) (a b : Row)
    (h : ¬ compareRows E key dir a b ≤ 0) (hb : (b.get key).isNullish = true) :
    (a.get key).isNullish = true := by
  unfold compareRows at h
  by_cases he : strictEq (a.get key) (b.get key) = true
  · simp [he] at h
  · by_cases ha : (a.get key).isNullish = true
    · exact ha
    · simp [he, ha, hb] at h

/-! ## Facts about the insertion sort -/

theorem pairwise_orderedInsert {α : Type} (r : α → α → Prop) [DecidableRel r]
    (R : α → α → Prop) (hr : ∀ a b, r a b → R a b) (hn : ∀ a b, ¬ r a b → R b a)
    (ht : ∀ a b c, R a b → R b c → R a c) (a : α) :
    ∀ l : List α, l.Pairwise R → (l.orderedInsert r a).Pairwise R
  | [], _ => by simp
  | b :: l, h => by
    rw [List.pairwise_cons] at h
    by_cases hab : r a b
    · rw [List.orderedInsert, if_pos hab, List.pairwise_cons]
      refine ⟨?_, List.pairwise_cons.2 h⟩
      intro x hx
      rcases List.mem_cons.1 hx with rfl | hx
      · exact hr _ _ hab
      · exact ht _ _ _ (hr _ _ hab) (h.1 x hx)
    · rw [List.orderedInsert, if_neg hab, List.pairwise_cons]
      refine ⟨?_, pairwise_orderedInsert r R hr hn ht a l h.2⟩
      intro x hx
      rcases (List.mem_orderedInsert r).1 hx with rfl | hx
      · exact hn _ _ hab
      · exact h.1 x hx

theorem pairwise_arraySort {α : Type} (cmp : α → α → Int) (R : α → α → Prop)
    (hr : ∀ a b, cmp a b ≤ 0 → R a b) (hn : ∀ a b, ¬ cmp a b ≤ 0 → R b a)
    (ht : ∀ a b c, R a b → R b c → R a c) : ∀ l : List α, (arraySort cmp l).Pairwise R
  | [] => by simp [arraySort]
  | a :: l => by
    have ih := pairwise_arraySort cmp R hr hn ht l
    exact pairwise_orderedInsert _ R hr hn ht a _ ih

theorem arraySort_perm {α : Type} (cmp : α → α → Int) (l : List α) :
    (arraySort cmp l).Perm l :=
  List.perm_insertionSort _ l

theorem arraySort_filter_eq {α : Type} (cmp : α → α → Int) (p : α → Bool)
    (hp : ∀ a b, p a = true → p b = true → cmp a b ≤ 0) (l : List α) :
    (arraySort cmp l).filter p = l.filter p := by
  have hpw : (l.filter p).Pairwise (fun a b => cmp a b ≤ 0) := by
    rw [List.pairwise_iff_forall_sublist]
    intro a b hab
    have ha : a ∈ l.filter p := hab.subset (by simp)
    have hb : b ∈ l.filter p := hab.subset (by simp)
    exact hp a b (List.mem_filter.1 ha).2 (List.mem_filter.1 hb).2
  have hsub : (l.filter p).Sublist (arraySort cmp l) :=
    List.sublist_insertionSort hpw (List.filter_sublist l)
  have hsub2 : (l.filter p).Sublist ((arraySort cmp l).filter p) := by
    have := hsub.filter p
    rwa [List.filter_filter, show (fun a => (p a && p a)) = p from by funext a; simp] at this
  have hlen : ((arraySort cmp l).filter p).length = (l.filter p).length :=
    ((arraySort_perm cmp l).filter p).length_eq
  exact (hsub2.eq_of_length hlen.symm).symm

/-! ## Sort stage: missing values last, stability -/

/-- C1. In the order produced by the sort stage no row whose `sortKey` value is `null` or
`undefined` stands before a row whose `sortKey` value is defined, whatever the rows, the
key and `sortDir` are. -/
theorem sortStage_missing_last (E : JSEngine) (sortKey : String) (sortDir : Int)
    (rows : List Row) :
    (sortStage E sortKey sortDir rows).Pairwise
      (fun a b => (a.get sortKey).isNullish = true → (b.get sortKey).isNullish = true) := by
  apply pairwise_arraySort
  · intro a b h; exact nullish_of_compareRows_le E sortKey sortDir a b h
  · intro a b h; exact nullish_of_compareRows_gt E sortKey sortDir a b h
  · intro a b c hab hbc ha; exact hbc (hab ha)

/-! ## The filters keep the order of `raw` -/

theorem filterExcept_sublist (p : Row → Except JSError Bool) :
    ∀ (rows l : List Row), filterExcept p rows = .ok l → l.Sublist rows
  | [], l, h => by
    simp [filterExcept] at h; subst h; exact List.Sublist.refl _
  | r :: rs, l, h => by
    unfold filterExcept at h
    cases hp : p r with
    | error e => simp [hp] at h
    | ok b =>
      cases hr : filterExcept p rs with
      | error e => simp [hp, hr] at h
      | ok l1 =>
        have ih := filterExcept_sublist p rs l1 hr
        simp [hp, hr] at h
        subst h
        cases b
        · simpa using ih.cons r
        · simpa using ih.cons₂ r

theorem textStage_sublist {q : String} {rows l : List Row} (h : textStage q rows = .ok l) :
    l.Sublist rows := by
  unfold textStage at h
  split at h
  · exact filterExcept_sublist _ _ _ h
  · simp at h; subst h; exact List.Sublist.refl _

theorem sectorStage_sublist (sec : String) (rows : List Row) :
    (sectorStage sec rows).Sublist rows := by
  unfold sectorStage
  split
  · exact List.filter_sublist _
  · exact List.Sublist.refl _

theorem passStage_sublist (b : Bool) (rows : List Row) : (passStage b rows).Sublist rows := by
  unfold passStage
  split
  · exact List.filter_sublist _
  · exact List.Sublist.refl _

theorem filterRows_sublist {st : State} {rows l : List Row} (h : filterRows st rows = .ok l) :
    l.Sublist rows := by
  unfold filterRows at h
  cases h1 : textStage (queryOf st) rows with
  | error e => simp [h1] at h
  | ok rows1 =>
    simp [h1] at h
    subst h
    exact ((passStage_sublist _ _).trans (sectorStage_sublist _ _)).trans (textStage_sublist h1)

theorem renderRows_of_filterRows (E : JSEngine) {st : State} {rows l : List Row}
    (hraw : st.raw = .array rows) (hf : filterRows st rows = .ok l) :
    renderRows E st = .ok (sortStage E st.sortKey st.sortDir l) := by
  simp [renderRows, hraw, hf]

/-! ## The table body and the click listener -/

theorem render_tbody (E : JSEngine) {st : State} {out : List Row}
    (h : renderRows E st = .ok out) :
    renderOrKeep E st = { st with tbody := out.map (projectRow E) } := by
  simp [renderOrKeep, render, h]

theorem headerClick_eq (E : JSEngine) (key : String) (st : State) :
    headerClick E key st =
      renderOrKeep E { st with sortKey := key,
                               sortDir := if st.sortKey = key then st.sortDir * -1 else -1 } := by
  unfold headerClick
  by_cases h : st.sortKey = key
  · subst h; simp
  · simp [h]

/-! ## The text filter -/

theorem lowerOf_str (s : String) : lowerOf (.str s) = .ok (toLowerCase s) := by
  by_cases h : s = ""
  · subst h; rfl
  · simp [lowerOf, jsOr, JSVal.truthy, h]

theorem lowerOf_falsy {v : JSVal} (h : v.truthy = false) : lowerOf v = .ok (toLowerCase "") := by
  simp [lowerOf, jsOr, h]

theorem lowerOf_textual {v : JSVal} (h : Textual v) : ∃ t, lowerOf v = .ok t := by
  rcases h with h | ⟨s, rfl⟩
  · exact ⟨_, lowerOf_falsy h⟩
  · exact ⟨_, lowerOf_str s⟩

theorem textMatch_total (q : String) {r : Row} (ht : Textual (r.get "ticker"))
    (hc : Textual (r.get "company")) : ∃ b, textMatch q r = .ok b := by
  obtain ⟨t, ht⟩ := lowerOf_textual ht
  obtain ⟨c, hc⟩ := lowerOf_textual hc
  unfold textMatch
  rw [ht]
  by_cases hi : includes t q = true
  · exact ⟨true, by simp [hi]⟩
  · exact ⟨includes c q, by simp [hi, hc]⟩

theorem filterExcept_total (p : Row → Except JSError Bool) :
    ∀ rows : List Row, (∀ r ∈ rows, ∃ b, p r = .ok b) →
      ∃ l, filterExcept p rows = .ok l ∧ ∀ r ∈ rows, p r = .ok true → r ∈ l
  | [], _ => ⟨[], rfl, by simp⟩
  | r :: rs, h => by
    obtain ⟨b, hb⟩ := h r (List.mem_cons_self _ _)
    obtain ⟨l, hl, hmem⟩ := filterExcept_total p rs (fun x hx => h x (List.mem_cons_of_mem _ hx))
    refine ⟨if b then r :: l else l, by simp [filterExcept, hb, hl], ?_⟩
    intro x hx hpx
    rcases List.mem_cons.1 hx with rfl | hx
    · rw [hb] at hpx
      cases hpx
      simp
    · have := hmem x hx hpx
      cases b <;> simp [this]

theorem mem_sectorStage {sec : String} {rows : List Row} {R : Row} (hR : R ∈ rows)
    (h : sec = "" ∨ sec = "ALL" ∨ R.get "sector" = .str sec) : R ∈ sectorStage sec rows := by
  unfold sectorStage
  split
  · rename_i hs
    rcases h with h | h | h
    · exact absurd h hs.1
    · exact absurd h hs.2
    · exact List.mem_filter.2 ⟨hR, by rw [h]; simp [strictEq]⟩
  · exact hR

theorem mem_passStage {b : Bool} {rows : List Row} {R : Row} (hR : R ∈ rows)
    (h : b = false ∨ R.get "pass" = .bool true) : R ∈ passStage b rows := by
  unfold passStage
  split
  · rename_i hb
    rcases h with h | h
    · rw [h] at hb; cases hb
    · exact List.mem_filter.2 ⟨hR, by rw [h]; rfl⟩
  · exact hR

theorem mem_sortStage {E : JSEngine} {key : String} {dir : Int} {rows : List Row} {R : Row} :
    R ∈ sortStage E key dir rows ↔ R ∈ rows :=
  (arraySort_perm _ rows).mem_iff

/-! ## The pass-only filter -/

theorem strictEq_true_iff (v : JSVal) : strictEq v (.bool true) = true ↔ v = .bool true := by
  rw [strictEq_iff]
  constructor
  · exact fun h => h.1
  · intro h; subst h; exact ⟨rfl, by simp⟩

theorem passStage_on (rows : List Row) :
    passStage true rows = rows.filter (fun r => decide (r.get "pass" = .bool true)) := by
  simp only [passStage, if_true]
  apply List.filter_congr
  intro r _
  by_cases h : r.get "pass" = .bool true
  · simp [h, strictEq]
  · have : ¬ strictEq (r.get "pass") (.bool true) = true := fun h1 => h ((strictEq_true_iff _).1 h1)
    simp [h, this]

/-- C5. With the pass-only toggle on, and `rows1` the rows that the text filter lets through,
`render` completes and the rendered rows are, up to the sort order, exactly the rows passing
the text and sector filters whose `pass` is the boolean `true`; a row whose `pass` is
anything else (false, undefined, 1, "true", ...) is not rendered. -/
theorem pass_filter_exact (E : JSEngine) (st : State) (rows rows1 : List Row)
    (hraw : st.raw = .array rows) (hon : st.onlyPass = true)
    (h1 : textStage (queryOf st) rows = .ok rows1) :
    ∃ out, renderRows E st = .ok out ∧
      out.Perm ((sectorStage st.sector rows1).filter
        (fun r => decide (r.get "pass" = .bool true))) ∧
      (∀ r ∈ out, r.get "pass" = .bool true) ∧
      (renderOrKeep E st).tbody = out.map (projectRow E) := by
  have hf : filterRows st rows = .ok ((sectorStage st.sector rows1).filter
      (fun r => decide (r.get "pass" = .bool true))) := by
    simp only [filterRows, h1, hon, passStage_on]
  have hr := renderRows_of_filterRows E hraw hf
  refine ⟨_, hr, arraySort_perm _ _, ?_, by rw [render_tbody E hr]⟩
  intro r hr'
  have := (List.mem_filter.1 (mem_sortStage.1 hr')).2
  simpa using this

/-- Witness for C5: rows `{ticker:"AAA",score:10,pass:true}` and
`{ticker:"BBB",score:20,pass:false}` with the toggle on; only AAA is rendered. -/
theorem pass_filter_exact_witness :
    passOnlyState.onlyPass = true ∧
    renderRows sampleEngine passOnlyState = .ok [rowAAA] ∧
    (renderOrKeep sampleEngine passOnlyState).tbody.map (fun t => t.ticker) = ["AAA"] ∧
    (∃ out, renderRows sampleEngine passOnlyState = .ok out ∧
      out.Perm ((sectorStage passOnlyState.sector [rowAAA, rowBBB]).filter
        (fun r => decide (r.get "pass" = .bool true))) ∧
      (∀ r ∈ out, r.get "pass" = .bool true) ∧
      (renderOrKeep sampleEngine passOnlyState).tbody = out.map (projectRow sampleEngine)) :=
  ⟨rfl, by decide, by decide,
    pass_filter_exact sampleEngine passOnlyState [rowAAA, rowBBB] [rowAAA, rowBBB] rfl rfl
      (by decide)⟩

/-! ## Failed loads -/

/-- C6, counterexample.  A refresh whose fetch rejects, or whose body is not JSON, leaves
the whole state as it was: the timestamp area keeps the old timestamp and does not show the
error text (only the start-up call has a `.catch`).  A payload whose `rows` is the number 5
overwrites the timestamp and `raw` before `load` throws, at start-up and on refresh. -/
theorem refresh_failure_unreported :
    loadedState.lastUpdate = "Actualización: 2024-01-01" ∧
    refresh sampleEngine none loadedState = loadedState ∧
    refresh sampleEngine (some ⟨.invalid⟩) loadedState = loadedState ∧
    (refresh sampleEngine none loadedState).lastUpdate ≠ loadErrorText ∧
    (pageStart sampleEngine none (initialState blankPage)).lastUpdate = loadErrorText ∧
    loadedState.raw = .array [rowAAA, rowBBB] ∧
    (refresh sampleEngine (some rowsNotArrayResponse) loadedState).raw = .nonArray ∧
    (refresh sampleEngine (some rowsNotArrayResponse) loadedState).lastUpdate
      = "Actualización: 2024-02-01" ∧
    (pageStart sampleEngine (some rowsNotArrayResponse) (initialState blankPage)).raw
      = .nonArray := by
  decide

/-! ## Loading through the cache worker -/

/-- C7, evaluation at the failing input.  The worker installed while the data file was
January's; the network now serves February's file.  `load` on the controlled page ends with
January's rows, whereas the network resource holds the row CCC. -/
theorem worker_serves_cached_data :
    (install januaryNet).map (fun c => c.lookup dataUrl) = some (some januaryResponse) ∧
    (install januaryNet).map
      (fun c => (loadViaWorker sampleEngine c februaryNet (initialState blankPage)).1.state.raw)
        = some (.array [rowAAA, rowBBB]) ∧
    (install januaryNet).map
      (fun c => (loadViaWorker sampleEngine c februaryNet (initialState blankPage)).1.error)
        = some none ∧
    (load sampleEngine (februaryNet dataUrl) (initialState blankPage)).state.raw
      = .array [rowCCC] := by
  decide

/-! ## Projection of absent and malformed fields -/

/-- C8, counterexample.  For the row `{score:7, price:"abc"}` the ticker
cell reads `undefined`, the price cell reads `NaN` and the two percentage cells read `%`,
while company and sector are empty; and for a row with the numeric ticker 5 and a non-empty
search text `render` throws a `TypeError`. -/
theorem missing_ticker_renders_undefined :
    (renderOrKeep sampleEngine noTickerState).tbody.map
        (fun t => (t.ticker, t.company, t.sector, t.price, t.p_vs_ma50.text, t.ret3m.text))
      = [("undefined", "", "", "NaN", "%", "%")] ∧
    render sampleEngine numericTickerState = .error .typeError := by
  decide

/-! ## The sector drop-down -/

theorem mem_setFrom : ∀ (l : List JSVal) (x : JSVal), x ∈ setFrom l ↔ x ∈ l
  | [], x => by simp [setFrom]
  | v :: vs, x => by
    simp only [setFrom, List.mem_cons, List.mem_filter, mem_setFrom vs x, decide_eq_true_eq]
    constructor
    · rintro (h | ⟨h, _⟩)
      · exact Or.inl h
      · exact Or.inr h
    · intro h
      by_cases hx : x = v
      · exact Or.inl hx
      · exact Or.inr ⟨h.resolve_left hx, hx⟩

theorem nodup_setFrom : ∀ l : List JSVal, (setFrom l).Nodup
  | [] => by simp [setFrom]
  | v :: vs => by
    simp only [setFrom, List.nodup_cons, List.mem_filter, decide_eq_true_eq]
    exact ⟨fun h => h.2 rfl, (nodup_setFrom vs).filter _⟩

theorem strLt_asymm {s t : String} (h : strLt s t = true) : ¬ strLt t s = true := by
  simp only [strLt, decide_eq_true_eq] at *
  exact lt_asymm h

theorem strLt_not_trans {a b c : String} (h1 : ¬ strLt b a = true) (h2 : ¬ strLt c b = true) :
    ¬ strLt c a = true := by
  simp only [strLt, decide_eq_true_eq] at *
  exact not_lt.2 (le_trans (not_lt.1 h1) (not_lt.1 h2))

theorem defaultCompare_le (E : JSEngine) (x y : JSVal) (h : defaultCompare E x y ≤ 0) :
    ¬ strLt (toStr E y) (toStr E x) = true := by
  unfold defaultCompare at h
  by_cases h1 : strLt (toStr E x) (toStr E y) = true
  · exact strLt_asymm h1
  · by_cases h2 : strLt (toStr E y) (toStr E x) = true
    · simp [h1, h2] at h
    · exact h2

theorem defaultCompare_gt (E : JSEngine) (x y : JSVal) (h : ¬ defaultCompare E x y ≤ 0) :
    ¬ strLt (toStr E x) (toStr E y) = true := by
  unfold defaultCompare at h
  by_cases h1 : strLt (toStr E x) (toStr E y) = true
  · simp [h1] at h
  · exact h1

theorem mem_deriveSectors (E : JSEngine) (rows : List Row) (v : JSVal) :
    v ∈ deriveSectors E rows ↔ (v.truthy = true ∧ ∃ r ∈ rows, r.get "sector" = v) := by
  unfold deriveSectors
  rw [(arraySort_perm _ _).mem_iff, mem_setFrom, List.mem_filter, List.mem_map]
  constructor
  · rintro ⟨⟨r, hr, rfl⟩, ht⟩
    exact ⟨ht, r, hr, rfl⟩
  · rintro ⟨ht, r, hr, rfl⟩
    exact ⟨⟨r, hr, rfl⟩, ht⟩

theorem load_array_sectorOptions (E : JSEngine) (st : State) (u : JSVal) (rows : List Row) :
    (load E (some ⟨.json ⟨u, .array rows⟩⟩) st).state.sectorOptions = sectorOptionsOf E rows := by
  simp only [load, finishLoad]
  split <;> rename_i h
  · simp only [render] at h
    split at h
    · cases h
    · cases h; rfl
  · rfl

theorem takeWhile_append_stop {α : Type} (p : α → Bool) (x : α) (hx : p x = false) :
    ∀ (l r : List α), (∀ a ∈ l, p a = true) → (l ++ x :: r).takeWhile p = l
  | [], r, _ => by simp [List.takeWhile, hx]
  | a :: l, r, h => by
    have ha : p a = true := h a (List.mem_cons_self _ _)
    have ih := takeWhile_append_stop p x hx l r (fun b hb => h b (List.mem_cons_of_mem _ hb))
    simp [List.takeWhile, ha, ih]

theorem attributeValue_optionMarkup (s : String) (h : ∀ c ∈ s.data, c ≠ '"') :
    attributeValue (optionMarkup s) = s := by
  have hd : (optionMarkup s).data =
      ['<', 'o', 'p', 't', 'i', 'o', 'n', ' ', 'v', 'a', 'l', 'u', 'e', '=', '"'] ++
        (s.data ++ '"' :: ('>' :: s.data ++ "</option>".data)) := by
    simp [optionMarkup, String.data_append]
  apply String.ext
  simp only [attributeValue, hd]
  simp only [List.cons_append, List.nil_append, List.dropWhile, List.drop]
  simp only [ne_eq, Char.reduceEq, not_false_eq_true, decide_True, not_true_eq_false,
    decide_False, List.drop_succ_cons, List.drop_zero]
  exact takeWhile_append_stop _ '"' (by simp) _ _ (fun c hc => by simpa using h c hc)

/-- C9 (amended). After `load` has received a payload whose rows are `rows`, the markup
written into the sector drop-down is the `ALL` option followed by one option per derived
sector value, the value's text pasted unescaped as `value` attribute and as content.  The
derived values are pairwise distinct, ascending by the UTF-16 code units of their text, and
are exactly the truthy (for a string: non-empty) `sector` values occurring in `rows`, so
empty, null and undefined sectors never appear.  For a sector whose text has no quotation
mark, ampersand, less-than sign or control character the `value` attribute reads back as
that text.  Sectors Tech, Energy, Tech give ALL, Energy, Tech. -/
theorem sector_options_sorted_distinct (E : JSEngine) (st : State) (u : JSVal)
    (rows : List Row) :
    (load E (some ⟨.json ⟨u, .array rows⟩⟩) st).state.sectorOptions =
      String.join (allOption :: (deriveSectors E rows).map (fun s => optionMarkup (toStr E s))) ∧
    (deriveSectors E rows).Nodup ∧
    (deriveSectors E rows).Pairwise (fun a b => ¬ strLt (toStr E b) (toStr E a) = true) ∧
    (∀ v : JSVal, v ∈ deriveSectors E rows ↔
      (v.truthy = true ∧ ∃ r ∈ rows, r.get "sector" = v)) ∧
    (∀ s : String, JSVal.str s ∈ deriveSectors E rows ↔
      (s ≠ "" ∧ ∃ r ∈ rows, r.get "sector" = .str s)) ∧
    JSVal.null ∉ deriveSectors E rows ∧ JSVal.undefined ∉ deriveSectors E rows ∧
    attributeValue allOption = "ALL" ∧
    (∀ v ∈ deriveSectors E rows, MarkupSafe (toStr E v) →
      attributeValue (optionMarkup (toStr E v)) = toStr E v) ∧
    (load sampleEngine (some ⟨.json ⟨u, .array sectorRows⟩⟩) st).state.sectorOptions =
      "<option value=\"ALL\">Todos los sectores</option>" ++
        "<option value=\"Energy\">Energy</option><option value=\"Tech\">Tech</option>" := by
  have hmem := mem_deriveSectors E rows
  refine ⟨?_, ?_, ?_, hmem, ?_, ?_, ?_, by decide, ?_, ?_⟩
  · rw [load_array_sectorOptions]; rfl
  · exact (arraySort_perm _ _).nodup_iff.2 (nodup_setFrom _)
  · apply pairwise_arraySort
    · exact defaultCompare_le E
    · exact defaultCompare_gt E
    · intro a b c hab hbc; exact strLt_not_trans hab hbc
  · intro s
    rw [hmem]
    simp [JSVal.truthy]
  · rw [hmem]; simp [JSVal.truthy]
  · rw [hmem]; simp [JSVal.truthy]
  · intro v _ hs
    exact attributeValue_optionMarkup _ (fun c hc => (hs c hc).1)
  · rw [load_array_sectorOptions]; decide

/-- Witness for C9 (amended): the sector text `Tech` is free of markup characters and its
`value` attribute reads back as `Tech`. -/
theorem sector_options_sorted_distinct_witness :
    deriveSectors sampleEngine sectorRows = [.str "Energy", .str "Tech"] ∧
    MarkupSafe "Tech" ∧
    attributeValue (optionMarkup (toStr sampleEngine (.str "Tech"))) =
      toStr sampleEngine (.str "Tech") :=
  have hsafe : MarkupSafe "Tech" := by
    intro c hc
    have hc' : c = 'T' ∨ c = 'e' ∨ c = 'c' ∨ c = 'h' := by simpa using hc
    rcases hc' with rfl | rfl | rfl | rfl <;> decide
  ⟨by decide, hsafe,
    (sector_options_sorted_distinct sampleEngine blankPage .undefined sectorRows).2.2.2.2.2.2.2.2.1
      (.str "Tech") (by decide) hsafe⟩

/-- C9, counterexample.  One row with the sector `Oil "Gas"`: the derived sector value is
that text, but in the markup written into the drop-down the `value` attribute of its option
ends at the first inner quotation mark, so the option's value is `Oil ` and the sector
itself is not among the option values. -/
theorem sector_option_truncated :
    deriveSectors sampleEngine [rowQuotedSector] = [.str "Oil \"Gas\""] ∧
    (load sampleEngine (some ⟨.json ⟨.undefined, .array [rowQuotedSector]⟩⟩)
        (initialState blankPage)).state.sectorOptions =
      "<option value=\"ALL\">Todos los sectores</option>" ++
        "<option value=\"Oil \"Gas\"\">Oil \"Gas\"</option>" ∧
    attributeValue (optionMarkup "Oil \"Gas\"") = "Oil " ∧
    attributeValue (optionMarkup "Oil \"Gas\"") ≠ "Oil \"Gas\"" := by
  decide

/-! ## Sort state -/

theorem renderOrKeep_sort (E : JSEngine) (st : State) :
    (renderOrKeep E st).sortKey = st.sortKey ∧ (renderOrKeep E st).sortDir = st.sortDir := by
  unfold renderOrKeep render
  cases renderRows E st <;> simp

theorem finishLoad_sort (E : JSEngine) (rows : List Row) (st : State) :
    (finishLoad E rows st).state.sortKey = st.sortKey ∧
    (finishLoad E rows st).state.sortDir = st.sortDir := by
  unfold finishLoad render
  simp only
  cases renderRows E _ <;> simp

theorem load_sort (E : JSEngine) (fetched : Option Response) (st : State) :
    (load E fetched st).state.sortKey = st.sortKey ∧
    (load E fetched st).state.sortDir = st.sortDir := by
  rcases fetched with _ | ⟨⟨body⟩⟩
  · exact ⟨rfl, rfl⟩
  · rcases body with _ | _ | ⟨⟨u, rows⟩⟩
    · exact ⟨rfl, rfl⟩
    · exact ⟨rfl, rfl⟩
    · rcases rows with v | rows | _
      · by_cases hv : v.truthy = true
        · simp [load, hv]
        · simpa [load, hv] using finishLoad_sort E [] _
      · simpa [load] using finishLoad_sort E rows _
      · simp [load]

theorem pageStart_sortDir (E : JSEngine) (fetched : Option Response) (st : State) :
    (pageStart E fetched st).sortDir = st.sortDir := by
  unfold pageStart
  simp only
  cases (load E fetched st).error <;> simp [(load_sort E fetched st).2]

theorem headerClick_sort (E : JSEngine) (key : String) (st : State) :
    (headerClick E key st).sortKey = key ∧
    (headerClick E key st).sortDir = if st.sortKey = key then -st.sortDir else -1 := by
  rw [headerClick_eq]
  refine ⟨(renderOrKeep_sort E _).1, ?_⟩
  rw [(renderOrKeep_sort E _).2]
  split <;> simp

theorem step_sortDir (E : JSEngine) (st : State) (e : Event)
    (h : st.sortDir = 1 ∨ st.sortDir = -1) :
    (step E st e).sortDir = 1 ∨ (step E st e).sortDir = -1 := by
  cases e with
  | headerClick key =>
    simp only [step, (headerClick_sort E key st).2]
    split
    · rcases h with h | h <;> simp [h]
    · exact Or.inr rfl
  | otherClick => exact h
  | searchInput text => simpa [step, (renderOrKeep_sort E _).2] using h
  | sectorChange value => simpa [step, (renderOrKeep_sort E _).2] using h
  | passToggle checked => simpa [step, (renderOrKeep_sort E _).2] using h
  | refresh fetched => simpa [step, refresh, (load_sort E fetched st).2] using h

theorem foldl_step_sortDir (E : JSEngine) :
    ∀ (events : List Event) (st : State), (st.sortDir = 1 ∨ st.sortDir = -1) →
      ((events.foldl (step E) st).sortDir = 1 ∨ (events.foldl (step E) st).sortDir = -1)
  | [], _, h => h
  | e :: es, st, h => foldl_step_sortDir E es (step E st e) (step_sortDir E st e h)

/-- C10. A click on the header of `key` turns the sort state `(sortKey, sortDir)` into
`(sortKey, -sortDir)` when `key` is the current `sortKey`, and into `(key, -1)` otherwise.
The script starts with `("score", -1)`, and after start-up and any sequence of events
`sortDir` is `+1` or `-1`. -/
theorem header_click_sort_state (E : JSEngine) :
    (∀ (st : State) (key : String),
      ((headerClick E key st).sortKey, (headerClick E key st).sortDir) =
        if key = st.sortKey then (st.sortKey, -st.sortDir) else (key, -1)) ∧
    (∀ page : State, (initialState page).sortKey = "score" ∧ (initialState page).sortDir = -1) ∧
    (∀ (page : State) (first : Option Response) (events : List Event),
      (run E page first events).sortDir = 1 ∨ (run E page first events).sortDir = -1) := by
  refine ⟨?_, fun _ => ⟨rfl, rfl⟩, ?_⟩
  · intro st key
    rw [(headerClick_sort E key st).1, (headerClick_sort E key st).2]
    by_cases h : key = st.sortKey
    · subst h; simp
    · have h' : ¬ st.sortKey = key := fun e => h e.symm
      simp [h, h']
  · intro page first events
    apply foldl_step_sortDir
    right
    rw [pageStart_sortDir]
    rfl

/-! ## Failed loads: what is kept -/

theorem load_failsEarly (E : JSEngine) (st : State) {fetched : Option Response}
    (h : FailsEarly fetched) :
    (load E fetched st).state = st ∧ (load E fetched st).error ≠ none := by
  rcases h with rfl | rfl | rfl <;> exact ⟨rfl, by simp [load]⟩

/-- C6 (amended). When the fetch rejects, the body is not valid JSON or the payload is
`null`, `load` rejects and, whether it was started at page start or by the refresh control,
`raw`, the sector option list and the rendered table are exactly as before; after a load
started at page start the timestamp area shows the error text. -/
theorem failed_load_keeps_state (E : JSEngine) (st : State) (fetched : Option Response)
    (hfail : FailsEarly fetched) :
    (load E fetched st).error ≠ none ∧
    ((refresh E fetched st).raw = st.raw ∧
      (refresh E fetched st).sectorOptions = st.sectorOptions ∧
      (refresh E fetched st).tbody = st.tbody) ∧
    ((pageStart E fetched st).raw = st.raw ∧
      (pageStart E fetched st).sectorOptions = st.sectorOptions ∧
      (pageStart E fetched st).tbody = st.tbody ∧
      (pageStart E fetched st).lastUpdate = loadErrorText) := by
  obtain ⟨hs, he⟩ := load_failsEarly E st hfail
  refine ⟨he, ?_, ?_⟩
  · simp [refresh, hs]
  · unfold pageStart
    cases herr : (load E fetched st).error with
    | none => exact absurd herr he
    | some e => simp [hs, herr]

/-- Witness for C6 (amended): the loaded page, then a load whose fetch rejects. -/
theorem failed_load_keeps_state_witness :
    FailsEarly (none : Option Response) ∧
    loadedState.raw = .array [rowAAA, rowBBB] ∧
    ((load sampleEngine none loadedState).error ≠ none ∧
    ((refresh sampleEngine none loadedState).raw = loadedState.raw ∧
      (refresh sampleEngine none loadedState).sectorOptions = loadedState.sectorOptions ∧
      (refresh sampleEngine none loadedState).tbody = loadedState.tbody) ∧
    ((pageStart sampleEngine none loadedState).raw = loadedState.raw ∧
      (pageStart sampleEngine none loadedState).sectorOptions = loadedState.sectorOptions ∧
      (pageStart sampleEngine none loadedState).tbody = loadedState.tbody ∧
      (pageStart sampleEngine none loadedState).lastUpdate = loadErrorText)) :=
  ⟨Or.inl rfl, by decide, failed_load_keeps_state sampleEngine loadedState none (Or.inl rfl)⟩

/-! ## Projection: what degrades to an empty cell -/

theorem fmt_missing (E : JSEngine) {v : JSVal} (h : Missing v) (d : Nat) : fmt E v d = "" := by
  rcases h with rfl | rfl | rfl <;> simp [fmt]

theorem toStr_or_falsy (E : JSEngine) {v : JSVal} (h : v.truthy = false) :
    toStr E (jsOr v (.str "")) = "" := by
  simp [jsOr, h, toStr]

theorem textStage_total {q : String} {rows : List Row}
    (h : q = "" ∨ ∀ r ∈ rows, Textual (r.get "ticker") ∧ Textual (r.get "company")) :
    ∃ rows1, textStage q rows = .ok rows1 := by
  by_cases hq : q = ""
  · exact ⟨rows, by simp [textStage, hq]⟩
  · have hwf := h.resolve_left hq
    obtain ⟨l, hl, _⟩ := filterExcept_total (textMatch q) rows
      (fun r hr => textMatch_total _ (hwf r hr).1 (hwf r hr).2)
    exact ⟨l, by simp [textStage, hq, hl]⟩

/-- C8 (amended). `render` raises no error when the search text is blank or every row has
a ticker and a company that are strings or falsy values.  In the row it writes, a falsy
(in particular absent or null) company or sector gives an empty cell, and a numeric field
that is null, undefined or NaN is formatted as the empty string: the score, price, rsi,
ma50 and relvol cells are empty and the two percentage cells hold the `%` sign alone. -/
theorem render_degrades_gracefully (E : JSEngine) (st : State) (rows : List Row)
    (hraw : st.raw = .array rows)
    (hwf : queryOf st = "" ∨
      ∀ r ∈ rows, Textual (r.get "ticker") ∧ Textual (r.get "company")) :
    (∃ out, renderRows E st = .ok out ∧
      render E st = .ok { st with tbody := out.map (projectRow E) }) ∧
    ∀ r : Row,
      ((r.get "company").truthy = false → (projectRow E r).company = "") ∧
      ((r.get "sector").truthy = false → (projectRow E r).sector = "") ∧
      (Missing (r.get "score") → (projectRow E r).score = "") ∧
      (Missing (r.get "price") → (projectRow E r).price = "") ∧
      (Missing (r.get "rsi") → (projectRow E r).rsi = "") ∧
      (Missing (r.get "ma50") → (projectRow E r).ma50 = "") ∧
      (Missing (r.get "p_vs_ma50") → (projectRow E r).p_vs_ma50.text = "%") ∧
      (Missing (r.get "ret3m") → (projectRow E r).ret3m.text = "%") ∧
      (Missing (r.get "relvol") → (projectRow E r).relvol.text = "") := by
  constructor
  · obtain ⟨rows1, h1⟩ := textStage_total hwf
    have hf : filterRows st rows = .ok (passStage st.onlyPass (sectorStage st.sector rows1)) := by
      simp [filterRows, h1]
    have hr := renderRows_of_filterRows E hraw hf
    exact ⟨_, hr, by simp [render, hr]⟩
  · intro r
    refine ⟨toStr_or_falsy E, toStr_or_falsy E, fun h => fmt_missing E h 0,
      fun h => fmt_missing E h 2, fun h => fmt_missing E h 2, fun h => fmt_missing E h 2,
      fun h => ?_, fun h => ?_, fun h => fmt_missing E h 2⟩
    · show fmt E (r.get "p_vs_ma50") ++ "%" = "%"
      rw [fmt_missing E h]; rfl
    · show fmt E (r.get "ret3m") ++ "%" = "%"
      rw [fmt_missing E h]; rfl

/-- Witness for C8 (amended): the row `{score:7, price:"abc"}` with a blank search box is
rendered without error, with empty company and sector cells. -/
theorem render_degrades_gracefully_witness :
    queryOf noTickerState = "" ∧
    (renderOrKeep sampleEngine noTickerState).tbody.map (fun t => (t.company, t.sector, t.rsi))
      = [("", "", "")] ∧
    ((∃ out, renderRows sampleEngine noTickerState = .ok out ∧
      render sampleEngine noTickerState
        = .ok { noTickerState with tbody := out.map (projectRow sampleEngine) }) ∧
    ∀ r : Row,
      ((r.get "company").truthy = false → (projectRow sampleEngine r).company = "") ∧
      ((r.get "sector").truthy = false → (projectRow sampleEngine r).sector = "") ∧
      (Missing (r.get "score") → (projectRow sampleEngine r).score = "") ∧
      (Missing (r.get "price") → (projectRow sampleEngine r).price = "") ∧
      (Missing (r.get "rsi") → (projectRow sampleEngine r).rsi = "") ∧
      (Missing (r.get "ma50") → (projectRow sampleEngine r).ma50 = "") ∧
      (Missing (r.get "p_vs_ma50") → (projectRow sampleEngine r).p_vs_ma50.text = "%") ∧
      (Missing (r.get "ret3m") → (projectRow sampleEngine r).ret3m.text = "%") ∧
      (Missing (r.get "relvol") → (projectRow sampleEngine r).relvol.text = "")) :=
  ⟨by decide, by decide,
    render_degrades_gracefully sampleEngine noTickerState [rowNoTicker] rfl (Or.inl (by decide))⟩

/-! ## Sort stage: numbers come out in order -/

theorem JSNum.lt_irrefl (x : JSNum) : x.lt x = false := by
  cases x <;> simp [JSNum.lt]

theorem JSNum.lt_asymm {x y : JSNum} (h : x.lt y = true) : y.lt x = false := by
  cases x <;> cases y <;> simp_all [JSNum.lt]
  exact le_of_lt h

theorem JSNum.ge_of_not_lt {x y : JSNum} (hx : x ≠ .nan) (hy : y ≠ .nan)
    (h : x.lt y = false) : x.ge y = true := by
  cases x <;> cases y <;> simp_all [JSNum.ge]

theorem JSNum.not_lt_of_ge {x y : JSNum} (h : x.ge y = true) : x.lt y = false := by
  cases x <;> cases y <;> simp_all [JSNum.ge]

theorem JSNum.ge_trans {x y z : JSNum} (hxy : x.ge y = true) (hyz : y.ge z = true) :
    x.ge z = true := by
  cases x <;> cases y <;> cases z <;> simp_all [JSNum.ge, JSNum.lt]
  exact le_trans hyz hxy

theorem jsGe_num (E : JSEngine) (x y : JSNum) : jsGe E (.num x) (.num y) = x.ge y := by
  simp [jsGe, toNumber]

theorem pairwise_orderedInsert_on {α : Type} (r : α → α → Prop) [DecidableRel r]
    (R : α → α → Prop) (P : α → Prop)
    (hr : ∀ a b, P a → P b → r a b → R a b) (hn : ∀ a b, P a → P b → ¬ r a b → R b a)
    (ht : ∀ a b c, P a → P b → P c → R a b → R b c → R a c) (a : α) (ha : P a) :
    ∀ l : List α, (∀ x ∈ l, P x) → l.Pairwise R → (l.orderedInsert r a).Pairwise R
  | [], _, _ => by simp
  | b :: l, hP, h => by
    rw [List.pairwise_cons] at h
    have hb : P b := hP b (List.mem_cons_self _ _)
    have hl : ∀ x ∈ l, P x := fun x hx => hP x (List.mem_cons_of_mem _ hx)
    by_cases hab : r a b
    · rw [List.orderedInsert, if_pos hab, List.pairwise_cons]
      refine ⟨?_, List.pairwise_cons.2 h⟩
      intro x hx
      rcases List.mem_cons.1 hx with rfl | hx
      · exact hr _ _ ha hb hab
      · exact ht _ _ _ ha hb (hl x hx) (hr _ _ ha hb hab) (h.1 x hx)
    · rw [List.orderedInsert, if_neg hab, List.pairwise_cons]
      refine ⟨?_, pairwise_orderedInsert_on r R P hr hn ht a ha l hl h.2⟩
      intro x hx
      rcases (List.mem_orderedInsert r).1 hx with rfl | hx
      · exact hn _ _ ha hb hab
      · exact h.1 x hx

theorem pairwise_arraySort_on {α : Type} (cmp : α → α → Int) (R : α → α → Prop) (P : α → Prop)
    (hr : ∀ a b, P a → P b → cmp a b ≤ 0 → R a b)
    (hn : ∀ a b, P a → P b → ¬ cmp a b ≤ 0 → R b a)
    (ht : ∀ a b c, P a → P b → P c → R a b → R b c → R a c) :
    ∀ l : List α, (∀ x ∈ l, P x) → (arraySort cmp l).Pairwise R
  | [], _ => by simp [arraySort]
  | a :: l, hP => by
    have hl : ∀ x ∈ l, P x := fun x hx => hP x (List.mem_cons_of_mem _ hx)
    have ih := pairwise_arraySort_on cmp R P hr hn ht l hl
    have hs : ∀ x ∈ arraySort cmp l, P x :=
      fun x hx => hl x ((arraySort_perm cmp l).mem_iff.1 hx)
    exact pairwise_orderedInsert_on _ R P hr hn ht a (hP a (List.mem_cons_self _ _)) _ hs ih

theorem compareRows_num (E : JSEngine) (key : String) (dir : Int) {a b : Row} {x y : JSNum}
    (ha : a.get key = .num x) (hb : b.get key = .num y) (hx : x ≠ .nan) (hy : y ≠ .nan) :
    compareRows E key dir a b =
      if x = y then 0 else (if y.lt x = true then 1 else -1) * dir := by
  simp only [compareRows, ha, hb, JSVal.isNullish, jsGt, jsLt, toNumber]
  have hs : strictEq (.num x) (.num y) = decide (x = y) := by
    cases x <;> cases y <;> simp_all [strictEq]
  rw [hs]
  by_cases h : x = y <;> simp [h]

theorem sortStage_ascending (E : JSEngine) (key : String) (l : List Row)
    (hnum : ∀ r ∈ l, IsNumber (r.get key)) :
    (sortStage E key 1 l).Pairwise (fun a b => jsGe E (b.get key) (a.get key) = true) := by
  apply pairwise_arraySort_on _ _ (fun r => IsNumber (r.get key)) _ _ _ l hnum
  · rintro a b ⟨x, hx, hxn⟩ ⟨y, hy, hyn⟩ h
    rw [compareRows_num E key 1 hx hy hxn hyn] at h
    rw [hx, hy, jsGe_num]
    by_cases he : x = y
    · subst he; exact JSNum.ge_of_not_lt hxn hxn (JSNum.lt_irrefl x)
    · by_cases hlt : y.lt x = true
      · simp [he, hlt] at h
      · exact JSNum.ge_of_not_lt hyn hxn (by simpa using hlt)
  · rintro a b ⟨x, hx, hxn⟩ ⟨y, hy, hyn⟩ h
    rw [compareRows_num E key 1 hx hy hxn hyn] at h
    rw [hx, hy, jsGe_num]
    by_cases he : x = y
    · simp [he] at h
    · by_cases hlt : y.lt x = true
      · exact JSNum.ge_of_not_lt hxn hyn (JSNum.lt_asymm hlt)
      · simp [he, hlt] at h
  · rintro a b c ⟨x, hx, _⟩ ⟨y, hy, _⟩ ⟨z, hz, _⟩ hab hbc
    rw [hx, hy, hz, jsGe_num] at *
    exact JSNum.ge_trans hbc hab

theorem sortStage_descending (E : JSEngine) (key : String) (l : List Row)
    (hnum : ∀ r ∈ l, IsNumber (r.get key)) :
    (sortStage E key (-1) l).Pairwise (fun a b => jsGe E (a.get key) (b.get key) = true) := by
  apply pairwise_arraySort_on _ _ (fun r => IsNumber (r.get key)) _ _ _ l hnum
  · rintro a b ⟨x, hx, hxn⟩ ⟨y, hy, hyn⟩ h
    rw [compareRows_num E key (-1) hx hy hxn hyn] at h
    rw [hx, hy, jsGe_num]
    by_cases he : x = y
    · subst he; exact JSNum.ge_of_not_lt hxn hxn (JSNum.lt_irrefl x)
    · by_cases hlt : y.lt x = true
      · exact JSNum.ge_of_not_lt hxn hyn (JSNum.lt_asymm hlt)
      · simp [he, hlt] at h
  · rintro a b ⟨x, hx, hxn⟩ ⟨y, hy, hyn⟩ h
    rw [compareRows_num E key (-1) hx hy hxn hyn] at h
    rw [hx, hy, jsGe_num]
    by_cases he : x = y
    · simp [he] at h
    · by_cases hlt : y.lt x = true
      · simp [he, hlt] at h
      · exact JSNum.ge_of_not_lt hyn hxn (by simpa using hlt)
  · rintro a b c ⟨x, hx, _⟩ ⟨y, hy, _⟩ ⟨z, hz, _⟩ hab hbc
    rw [hx, hy, hz, jsGe_num] at *
    exact JSNum.ge_trans hab hbc

/-- C11. When every row of `raw` carries a defined number under `sortKey`, `render` shows a
reordering of the filtered rows in which each row's `sortKey` value is `>=` that of every
row above it when `sortDir = +1`, and `>=` that of every row below it when `sortDir = -1`;
with the defaults the rows appear by descending score. -/
theorem render_sorted_numbers (E : JSEngine) (st : State) (rows filtered : List Row)
    (hraw : st.raw = .array rows) (hf : filterRows st rows = .ok filtered)
    (hnum : ∀ r ∈ rows, IsNumber (r.get st.sortKey)) :
    ∃ out, renderRows E st = .ok out ∧ out.Perm filtered ∧
      (st.sortDir = 1 →
        out.Pairwise (fun a b => jsGe E (b.get st.sortKey) (a.get st.sortKey) = true)) ∧
      (st.sortDir = -1 →
        out.Pairwise (fun a b => jsGe E (a.get st.sortKey) (b.get st.sortKey) = true)) := by
  have hsub : ∀ r ∈ filtered, IsNumber (r.get st.sortKey) :=
    fun r hr => hnum r ((filterRows_sublist hf).subset hr)
  refine ⟨_, renderRows_of_filterRows E hraw hf, arraySort_perm _ _, ?_, ?_⟩
  · intro hd
    rw [hd]
    exact sortStage_ascending E st.sortKey filtered hsub
  · intro hd
    rw [hd]
    exact sortStage_descending E st.sortKey filtered hsub

/-- Witness for C11: rows AAA (score 10) and BBB (score 20) in the start-up sort state
(`score`, descending) are shown as BBB, AAA. -/
theorem render_sorted_numbers_witness :
    twoRowState.sortKey = "score" ∧ twoRowState.sortDir = -1 ∧
    renderRows sampleEngine twoRowState = .ok [rowBBB, rowAAA] ∧
    (∃ out, renderRows sampleEngine twoRowState = .ok out ∧ out.Perm [rowAAA, rowBBB] ∧
      (twoRowState.sortDir = 1 →
        out.Pairwise (fun a b =>
          jsGe sampleEngine (b.get twoRowState.sortKey) (a.get twoRowState.sortKey) = true)) ∧
      (twoRowState.sortDir = -1 →
        out.Pairwise (fun a b =>
          jsGe sampleEngine (a.get twoRowState.sortKey) (b.get twoRowState.sortKey) = true))) :=
  have hnum : ∀ r ∈ [rowAAA, rowBBB], IsNumber (r.get twoRowState.sortKey) := by
    intro r hr
    simp only [List.mem_cons, List.mem_singleton, List.not_mem_nil, or_false] at hr
    rcases hr with rfl | rfl
    · exact ⟨.fin 10, by decide, by decide⟩
    · exact ⟨.fin 20, by decide, by decide⟩
  ⟨rfl, rfl, by decide,
    render_sorted_numbers sampleEngine twoRowState [rowAAA, rowBBB] [rowAAA, rowBBB] rfl
      (by decide) hnum⟩

/-! ## Decimal digits -/

theorem toDigitsCore_eq (n : Nat) :
    ∀ (fuel : Nat) (ds : List Char), n < fuel →
      Nat.toDigitsCore 10 fuel n ds = Nat.toDigits 10 n ++ ds := by
  induction n using Nat.strong_induction_on with
  | _ n ih =>
    intro fuel ds hf
    obtain ⟨f, rfl⟩ : ∃ f, fuel = f + 1 := ⟨fuel - 1, by omega⟩
    unfold Nat.toDigits
    simp only [Nat.toDigitsCore]
    by_cases h0 : n / 10 = 0
    · simp [h0]
    · have hlt : n / 10 < n := Nat.div_lt_self (by omega) (by decide)
      simp only [h0, if_false]
      rw [ih (n / 10) hlt f _ (by omega), ih (n / 10) hlt n _ hlt]
      simp

theorem toDigits_small {n : Nat} (h : n < 10) : Nat.toDigits 10 n = [Nat.digitChar n] := by
  unfold Nat.toDigits
  simp only [Nat.toDigitsCore]
  have h0 : n / 10 = 0 := Nat.div_eq_of_lt h
  simp [h0, Nat.mod_eq_of_lt h]

theorem toDigits_large {n : Nat} (h : 10 ≤ n) :
    Nat.toDigits 10 n = Nat.toDigits 10 (n / 10) ++ [Nat.digitChar (n % 10)] := by
  have h0 : n / 10 ≠ 0 := by
    intro h0
    have := Nat.div_eq_zero_iff (by decide : 0 < 10) |>.1 h0
    omega
  have hlt : n / 10 < n := Nat.div_lt_self (by omega) (by decide)
  conv_lhs => unfold Nat.toDigits
  simp only [Nat.toDigitsCore, h0, if_false]
  exact toDigitsCore_eq (n / 10) n _ hlt

theorem toDigits_length_pos (n : Nat) : 0 < (Nat.toDigits 10 n).length := by
  by_cases h : n < 10
  · simp [toDigits_small h]
  · simp [toDigits_large (not_lt.1 h)]

theorem fractionDigits_length (m d : Nat) : (fractionDigits m d).length = d := by
  simp [fractionDigits]

theorem fractionDigits_succ (m d : Nat) :
    fractionDigits m (d + 1) = fractionDigits (m / 10) d ++ [Nat.digitChar (m % 10)] := by
  simp only [fractionDigits, List.range_succ_eq_map, List.reverse_cons, List.map_append,
    List.map_cons, List.map_nil, pow_zero, Nat.div_one, List.map_reverse, List.map_map]
  congr 2
  apply List.map_congr_left
  intro i _
  simp only [Function.comp, pow_succ', Nat.div_div_eq_div_mul]

theorem pad_toDigits (d : Nat) : ∀ n : Nat,
    List.replicate (d + 1 - (Nat.toDigits 10 n).length) '0' ++ Nat.toDigits 10 n =
      Nat.toDigits 10 (n / 10 ^ d) ++ fractionDigits n d := by
  induction d with
  | zero =>
    intro n
    have := toDigits_length_pos n
    have h : 0 + 1 - (Nat.toDigits 10 n).length = 0 := by omega
    simp [h, fractionDigits]
  | succ d ih =>
    intro n
    rw [fractionDigits_succ, pow_succ', ← Nat.div_div_eq_div_mul, ← List.append_assoc, ← ih]
    by_cases h : n < 10
    · have h0 : n / 10 = 0 := Nat.div_eq_of_lt h
      rw [toDigits_small h, h0, toDigits_small (by decide : 0 < 10), Nat.mod_eq_of_lt h]
      simp [List.replicate_succ']
      rfl
    · have h10 : 10 ≤ n := not_lt.1 h
      rw [toDigits_large h10]
      simp only [List.length_append, List.length_singleton, ← List.append_assoc]
      congr 3
      omega

theorem split_padded (d n : Nat) :
    let ds := Nat.toDigits 10 n
    let padded := List.replicate (d + 1 - ds.length) '0' ++ ds
    padded.take (padded.length - d) = Nat.toDigits 10 (n / 10 ^ d) ∧
    padded.drop (padded.length - d) = fractionDigits n d := by
  intro ds padded
  have hp : padded = Nat.toDigits 10 (n / 10 ^ d) ++ fractionDigits n d := pad_toDigits d n
  have hk : padded.length - d = (Nat.toDigits 10 (n / 10 ^ d)).length := by
    rw [hp, List.length_append, fractionDigits_length]; omega
  rw [hk, hp]
  exact ⟨List.take_left' rfl, List.drop_left' rfl⟩

/-! ## `fmt` writes fixed-point notation -/

theorem abs_eq_natAbs_div (q : ℚ) : |q| = (q.num.natAbs : ℚ) / (q.den : ℚ) := by
  have hden : (0 : ℚ) < q.den := by exact_mod_cast q.den_pos
  conv_lhs => rw [← Rat.num_div_den q]
  rw [abs_div, abs_of_pos hden, Nat.cast_natAbs, Int.cast_abs]

theorem round_eq (q : ℚ) (d : Nat) :
    (2 * q.num.natAbs * 10 ^ d + q.den) / (2 * q.den) = roundHalfUp (|q| * 10 ^ d) := by
  have hden : (0 : ℚ) < q.den := by exact_mod_cast q.den_pos
  have h : |q| * 10 ^ d + 1 / 2 =
      ((2 * q.num.natAbs * 10 ^ d + q.den : ℕ) : ℚ) / ((2 * q.den : ℕ) : ℚ) := by
    rw [abs_eq_natAbs_div]
    push_cast
    field_simp
    ring
  unfold roundHalfUp
  rw [h, Nat.floor_div_eq_div]

theorem below_threshold {q : ℚ} (hq : |q| < 10 ^ 21) : ¬ 10 ^ 21 * q.den ≤ q.num.natAbs := by
  have hden : (0 : ℚ) < q.den := by exact_mod_cast q.den_pos
  rw [abs_eq_natAbs_div, div_lt_iff₀ hden] at hq
  intro h
  have : ((10 ^ 21 * q.den : ℕ) : ℚ) ≤ (q.num.natAbs : ℚ) := by exact_mod_cast h
  push_cast at this
  linarith

theorem toFixed_fin (E : JSEngine) (q : ℚ) (d : Nat) (hq : |q| < 10 ^ 21) :
    toFixed E (.fin q) d = fixedPoint q d := by
  have hsign : (if q.num < 0 then "-" else "") = (if q < 0 then "-" else "") := by
    simp only [Rat.num_neg]
  simp only [toFixed, if_neg (below_threshold hq), hsign, fixedPoint, round_eq]
  by_cases hd : d = 0
  · subst hd
    simp [Nat.repr, List.asString]
  · obtain ⟨h1, h2⟩ := split_padded d (roundHalfUp (|q| * 10 ^ d))
    simp only [hd, if_false, Nat.repr, List.asString] at h1 h2 ⊢
    rw [h1, h2, String.append_assoc, String.append_assoc]

theorem piApprox_eq : piApprox = 3.14159 := by
  unfold piApprox
  rw [Rat.mk'_eq_divInt, Rat.divInt_eq_div]
  norm_num

/-- C12 (amended). `fmt(n, d)` is the empty string when `n` is null, undefined or NaN, for
every `d`; for a finite number `n` of magnitude below `10^21` and `d` from 0 to 100 it is `n`
in fixed-point notation rounded to exactly `d` fractional digits, and `d` defaults to 2. -/
theorem fmt_fixed_point (E : JSEngine) (q : ℚ) (d : Nat) (hq : |q| < 10 ^ 21)
    (_hd : d ≤ 100) :
    (∀ d' : Nat, fmt E .null d' = "" ∧ fmt E .undefined d' = "" ∧ fmt E (.num .nan) d' = "") ∧
    fmt E (.ofRat q) d = fixedPoint q d ∧
    fmt E (.ofRat q) = fixedPoint q 2 := by
  have h : ∀ k, fmt E (.ofRat q) k = fixedPoint q k := by
    intro k
    simp only [fmt, JSVal.ofRat, toNumber]
    rw [if_neg (by simp)]
    exact toFixed_fin E q k hq
  exact ⟨fun d' => ⟨by simp [fmt], by simp [fmt], by simp [fmt]⟩, h d, h 2⟩

/-- Witness for C12 (amended): `fmt(7, 0)` is `7` and `fmt(3.14159, 2)` is `3.14`. -/
theorem fmt_fixed_point_witness :
    piApprox = 3.14159 ∧
    fmt sampleEngine (.ofRat 7) 0 = "7" ∧
    fmt sampleEngine (.ofRat piApprox) 2 = "3.14" ∧
    fmt sampleEngine (.ofRat piApprox) = "3.14" ∧
    ((∀ d' : Nat, fmt sampleEngine .null d' = "" ∧ fmt sampleEngine .undefined d' = "" ∧
        fmt sampleEngine (.num .nan) d' = "") ∧
      fmt sampleEngine (.ofRat 7) 0 = fixedPoint 7 0 ∧
      fmt sampleEngine (.ofRat 7) = fixedPoint 7 2) :=
  ⟨piApprox_eq, by decide, by decide, by decide,
    fmt_fixed_point sampleEngine 7 0 (by norm_num) (by decide)⟩

/-- C12, counterexample.  `Infinity` is a numeric value other than NaN (it is what the JSON
number `1e999` parses to), and `fmt(Infinity, 2)` is the text `Infinity`, which has no
fractional digits. -/
theorem fmt_infinity :
    fmt sampleEngine (.num .posInf) 2 = "Infinity" ∧
    fmt sampleEngine (.num .negInf) 2 = "-Infinity" ∧
    '.' ∉ (fmt sampleEngine (.num .posInf) 2).data := by
  decide

/-! ## Cell classes -/

theorem relvolThreshold_eq : relvolThreshold = 5404319552844595 / 2 ^ 52 := by
  unfold relvolThreshold
  rw [Rat.mk'_eq_divInt, Rat.divInt_eq_div]
  norm_num

theorem justBelowThreshold_eq : justBelowThreshold = 2679641778285445 / 2 ^ 51 := by
  unfold justBelowThreshold
  rw [Rat.mk'_eq_divInt, Rat.divInt_eq_div]
  norm_num

theorem goodBad_good (b : Bool) : goodBad b = "good" ↔ b = true := by
  cases b <;> simp [goodBad]

theorem goodBad_bad (b : Bool) : goodBad b = "bad" ↔ b = false := by
  cases b <;> simp [goodBad]

theorem zero_not_ge_threshold : JSNum.ge (.fin 0) (.fin relvolThreshold) = false := by
  have : (0 : ℚ) < relvolThreshold := by rw [relvolThreshold_eq]; norm_num
  simp [JSNum.ge, JSNum.lt, this]

theorem jsGe_or_zero (E : JSEngine) (hE : E.stringToNumber "" = .fin 0) (v : JSVal) :
    jsGe E (jsOr v (.ofRat 0)) (.ofRat relvolThreshold) =
      jsGe E (missingAsZero v) (.ofRat relvolThreshold) := by
  cases v with
  | undefined => rfl
  | null => rfl
  | bool b => cases b <;> rfl
  | num n =>
    cases n with
    | nan =>
      simp only [jsOr, JSVal.truthy, missingAsZero, JSVal.isNullish, JSVal.ofRat]
      rw [if_neg (by simp), if_neg (by simp), jsGe_num, jsGe_num, zero_not_ge_threshold]
      rfl
    | posInf => rfl
    | negInf => rfl
    | fin q =>
      by_cases hq : q = 0
      · subst hq; simp [jsOr, JSVal.truthy, missingAsZero, JSVal.isNullish, JSVal.ofRat]
      · simp [jsOr, JSVal.truthy, missingAsZero, JSVal.isNullish, hq]
  | str s =>
    by_cases hs : s = ""
    · subst hs
      simp only [jsOr, JSVal.truthy, missingAsZero, JSVal.isNullish, JSVal.ofRat, jsGe, toNumber]
      simp [hE]
    · simp [jsOr, JSVal.truthy, missingAsZero, JSVal.isNullish, hs]

/-- C13. For every row the relative-volume cell has class `good` exactly when the row's
`relvol`, with a null or undefined value replaced by 0, is `>= 1.2`, and class `bad`
otherwise; for a finite number `q` that is `relvolThreshold ≤ q`, the threshold being the
double that the literal `1.2` denotes, and a missing `relvol` gives `bad`.
(The engine is assumed to convert the empty string to 0, as ECMAScript prescribes.) -/
theorem relvol_class (E : JSEngine) (hE : E.stringToNumber "" = .fin 0) (r : Row) :
    ((projectRow E r).relvol.cls = "good" ↔
      jsGe E (missingAsZero (r.get "relvol")) (.ofRat relvolThreshold) = true) ∧
    ((projectRow E r).relvol.cls = "bad" ↔
      jsGe E (missingAsZero (r.get "relvol")) (.ofRat relvolThreshold) = false) ∧
    (∀ q : ℚ, r.get "relvol" = .ofRat q →
      ((projectRow E r).relvol.cls = "good" ↔ relvolThreshold ≤ q)) ∧
    ((r.get "relvol").isNullish = true → (projectRow E r).relvol.cls = "bad") := by
  have hc : (projectRow E r).relvol.cls =
      goodBad (jsGe E (missingAsZero (r.get "relvol")) (.ofRat relvolThreshold)) := by
    show goodBad (jsGe E (jsOr (r.get "relvol") (.ofRat 0)) (.ofRat relvolThreshold)) = _
    rw [jsGe_or_zero E hE]
  refine ⟨by rw [hc, goodBad_good], by rw [hc, goodBad_bad], ?_, ?_⟩
  · intro q hq
    rw [hc, goodBad_good, hq]
    simp only [missingAsZero, JSVal.ofRat, JSVal.isNullish]
    rw [if_neg (by simp), jsGe_num]
    simp [JSNum.ge, JSNum.lt]
  · intro hn
    rw [hc, goodBad_bad]
    simp only [missingAsZero, hn, if_true, JSVal.ofRat, jsGe_num]
    exact zero_not_ge_threshold

/-- Witness for C13: `relvol = 1.19` is `bad`, `relvol = 1.2` is `good`, an absent
`relvol` is `bad`; `1.19` and `1.2` are the doubles nearest to these decimals (within half
a unit in the last place, `2^-53`). -/
theorem relvol_class_witness :
    justBelowThreshold = 2679641778285445 / 2 ^ 51 ∧
    |justBelowThreshold - 1.19| ≤ 1 / 2 ^ 53 ∧
    relvolThreshold = 5404319552844595 / 2 ^ 52 ∧
    |relvolThreshold - 1.2| ≤ 1 / 2 ^ 53 ∧
    sampleEngine.stringToNumber "" = .fin 0 ∧
    (projectRow sampleEngine rowRelvolLow).relvol.cls = "bad" ∧
    (projectRow sampleEngine rowRelvolAt).relvol.cls = "good" ∧
    (projectRow sampleEngine rowBare).relvol.cls = "bad" ∧
    (((projectRow sampleEngine rowRelvolAt).relvol.cls = "good" ↔
      jsGe sampleEngine (missingAsZero (rowRelvolAt.get "relvol")) (.ofRat relvolThreshold)
        = true) ∧
    ((projectRow sampleEngine rowRelvolAt).relvol.cls = "bad" ↔
      jsGe sampleEngine (missingAsZero (rowRelvolAt.get "relvol")) (.ofRat relvolThreshold)
        = false) ∧
    (∀ q : ℚ, rowRelvolAt.get "relvol" = .ofRat q →
      ((projectRow sampleEngine rowRelvolAt).relvol.cls = "good" ↔ relvolThreshold ≤ q)) ∧
    ((rowRelvolAt.get "relvol").isNullish = true →
      (projectRow sampleEngine rowRelvolAt).relvol.cls = "bad")) :=
  ⟨justBelowThreshold_eq,
    by rw [justBelowThreshold_eq, abs_le]; constructor <;> norm_num,
    relvolThreshold_eq,
    by rw [relvolThreshold_eq, abs_le]; constructor <;> norm_num,
    by decide, by decide, by decide, by decide,
    relvol_class sampleEngine (by decide) rowRelvolAt⟩

/-! ## The worker's cache-hit path -/

theorem swFetch_eq_fetchHandler (c : CacheStore) (net : Network) (url : String) :
    swFetch c net url = ((fetchHandler c net url).response, (fetchHandler c net url).cache) := by
  unfold swFetch fetchHandler
  cases c.lookup url with
  | some r => rfl
  | none => cases net url <;> rfl

/-- C14. When the cache store holds a match `r` for the requested URL, the worker's fetch
handler answers with `r`, issues no network request and leaves the cache store as it was,
whatever the network would have returned. -/
theorem cache_hit_served (c : CacheStore) (net : Network) (url : String) (r : Response)
    (h : c.lookup url = some r) :
    (fetchHandler c net url).response = some r ∧
    (fetchHandler c net url).fetched = [] ∧
    (fetchHandler c net url).cache = c ∧
    swFetch c net url = (some r, c) := by
  have hf : fetchHandler c net url = ⟨some r, c, []⟩ := by
    unfold fetchHandler
    rw [h]
  refine ⟨by rw [hf], by rw [hf], by rw [hf], ?_⟩
  rw [swFetch_eq_fetchHandler, hf]

/-- Witness for C14: the cache holds January's data file while the network serves
February's; the handler answers with January's file and fetches nothing. -/
theorem cache_hit_served_witness :
    januaryCache.lookup dataUrl = some januaryResponse ∧
    februaryNet dataUrl = some februaryResponse ∧
    ((fetchHandler januaryCache februaryNet dataUrl).response = some januaryResponse ∧
    (fetchHandler januaryCache februaryNet dataUrl).fetched = [] ∧
    (fetchHandler januaryCache februaryNet dataUrl).cache = januaryCache ∧
    swFetch januaryCache februaryNet dataUrl = (some januaryResponse, januaryCache)) :=
  ⟨by decide, by decide,
    cache_hit_served januaryCache februaryNet dataUrl januaryResponse (by decide)⟩

/-! ## Percentage cells -/

theorem percentClass_null (E : JSEngine) : goodBad (jsGe E .null (.ofRat 0)) = "good" := by
  simp [jsGe, toNumber, JSVal.ofRat, JSNum.ge, JSNum.lt, goodBad]

theorem percentClass_undefined (E : JSEngine) :
    goodBad (jsGe E .undefined (.ofRat 0)) = "bad" := by
  simp [jsGe, toNumber, JSVal.ofRat, JSNum.ge, goodBad]

theorem percentClass_num (E : JSEngine) (n : JSNum) :
    goodBad (jsGe E (.num n) (.ofRat 0)) = "good" ↔ n.ge (.fin 0) = true := by
  rw [goodBad_good, JSVal.ofRat, jsGe_num]

theorem percentClass_fin (E : JSEngine) (q : ℚ) :
    goodBad (jsGe E (.ofRat q) (.ofRat 0)) = "good" ↔ 0 ≤ q := by
  rw [goodBad_good, JSVal.ofRat, JSVal.ofRat, jsGe_num]
  simp [JSNum.ge, JSNum.lt]

/-- C15. The class of the two percentage cells: a `null` value gives `good`, an `undefined`
(absent) value gives `bad`, a number `n` gives `good` exactly when `n >= 0`, which for a
finite `q` is `0 ≤ q`; the same holds for `p_vs_ma50` and for `ret3m`. -/
theorem percent_class (E : JSEngine) (r : Row) :
    ((r.get "p_vs_ma50" = .null → (projectRow E r).p_vs_ma50.cls = "good") ∧
      (r.get "p_vs_ma50" = .undefined → (projectRow E r).p_vs_ma50.cls = "bad") ∧
      (∀ n : JSNum, r.get "p_vs_ma50" = .num n →
        ((projectRow E r).p_vs_ma50.cls = "good" ↔ n.ge (.fin 0) = true)) ∧
      (∀ q : ℚ, r.get "p_vs_ma50" = .ofRat q →
        ((projectRow E r).p_vs_ma50.cls = "good" ↔ 0 ≤ q))) ∧
    ((r.get "ret3m" = .null → (projectRow E r).ret3m.cls = "good") ∧
      (r.get "ret3m" = .undefined → (projectRow E r).ret3m.cls = "bad") ∧
      (∀ n : JSNum, r.get "ret3m" = .num n →
        ((projectRow E r).ret3m.cls = "good" ↔ n.ge (.fin 0) = true)) ∧
      (∀ q : ℚ, r.get "ret3m" = .ofRat q →
        ((projectRow E r).ret3m.cls = "good" ↔ 0 ≤ q))) := by
  have h1 : (projectRow E r).p_vs_ma50.cls = goodBad (jsGe E (r.get "p_vs_ma50") (.ofRat 0)) :=
    rfl
  have h2 : (projectRow E r).ret3m.cls = goodBad (jsGe E (r.get "ret3m") (.ofRat 0)) := rfl
  refine ⟨⟨?_, ?_, ?_, ?_⟩, ⟨?_, ?_, ?_, ?_⟩⟩
  · intro h; rw [h1, h]; exact percentClass_null E
  · intro h; rw [h1, h]; exact percentClass_undefined E
  · intro n h; rw [h1, h]; exact percentClass_num E n
  · intro q h; rw [h1, h]; exact percentClass_fin E q
  · intro h; rw [h2, h]; exact percentClass_null E
  · intro h; rw [h2, h]; exact percentClass_undefined E
  · intro n h; rw [h2, h]; exact percentClass_num E n
  · intro q h; rw [h2, h]; exact percentClass_fin E q

/-- Witness for C15: `{p_vs_ma50: null, ret3m: null}` gives `good`, `good`; a row without
the two fields gives `bad`, `bad`; `{p_vs_ma50: -1, ret3m: 3}` gives `bad`, `good`. -/
theorem percent_class_witness :
    (projectRow sampleEngine rowNullPercent).p_vs_ma50.cls = "good" ∧
    (projectRow sampleEngine rowNullPercent).ret3m.cls = "good" ∧
    (projectRow sampleEngine rowBare).p_vs_ma50.cls = "bad" ∧
    (projectRow sampleEngine rowBare).ret3m.cls = "bad" ∧
    ((projectRow sampleEngine rowPercent).p_vs_ma50.cls = "good" ↔ (0 : ℚ) ≤ -1) ∧
    ((projectRow sampleEngine rowPercent).ret3m.cls = "good" ↔ (0 : ℚ) ≤ 3) ∧
    (projectRow sampleEngine rowPercent).p_vs_ma50.cls = "bad" ∧
    (projectRow sampleEngine rowPercent).ret3m.cls = "good" :=
  ⟨(percent_class sampleEngine rowNullPercent).1.1 rfl,
    (percent_class sampleEngine rowNullPercent).2.1 rfl,
    (percent_class sampleEngine rowBare).1.2.1 rfl,
    (percent_class sampleEngine rowBare).2.2.1 rfl,
    (percent_class sampleEngine rowPercent).1.2.2.2 (-1) rfl,
    (percent_class sampleEngine rowPercent).2.2.2.2 3 rfl,
    by decide, by decide⟩

/-! ## The pipeline over a runtime -/

theorem filterRows_eq_reference (st : State) (rows : List Row) :
    filterRows st rows = filterRowsIn referenceRuntime st rows := rfl

theorem renderRows_eq_reference (E : JSEngine) (st : State) :
    renderRows E st = renderRowsIn referenceRuntime E st := rfl

theorem render_eq_reference (E : JSEngine) (st : State) :
    render E st = renderIn referenceRuntime E st := rfl

theorem conforms_reference : Conforms referenceRuntime :=
  ⟨by decide, fun cmp l => arraySort_perm cmp l, fun _ _ _ => rfl⟩

theorem textStageIn_sublist {R : Runtime} {q : String} {rows l : List Row}
    (h : textStageIn R q rows = .ok l) : l.Sublist rows := by
  unfold textStageIn at h
  split at h
  · exact filterExcept_sublist _ _ _ h
  · simp at h; subst h; exact List.Sublist.refl _

theorem filterRowsIn_sublist {R : Runtime} {st : State} {rows l : List Row}
    (h : filterRowsIn R st rows = .ok l) : l.Sublist rows := by
  unfold filterRowsIn at h
  cases h1 : textStageIn R (queryIn R st) rows with
  | error e => simp [h1] at h
  | ok rows1 =>
    simp [h1] at h
    subst h
    exact ((passStage_sublist _ _).trans (sectorStage_sublist _ _)).trans (textStageIn_sublist h1)

theorem renderRowsIn_of_filterRowsIn (R : Runtime) (E : JSEngine) {st : State}
    {rows l : List Row} (hraw : st.raw = .array rows) (hf : filterRowsIn R st rows = .ok l) :
    renderRowsIn R E st = .ok (R.sort (compareRows E st.sortKey st.sortDir) l) := by
  simp [renderRowsIn, hraw, hf]

theorem numCompare_asc_le (x y : JSNum) (hx : x ≠ .nan) (hy : y ≠ .nan) :
    ((if x = y then 0 else (if y.lt x = true then 1 else -1) * (1 : Int)) ≤ 0) ↔
      y.ge x = true := by
  by_cases he : x = y
  · subst he
    simp [JSNum.ge_of_not_lt hx hx (JSNum.lt_irrefl x)]
  · by_cases h : y.lt x = true
    · simp [he, h]
      cases hg : y.ge x
      · rfl
      · rw [JSNum.not_lt_of_ge hg] at h; simp at h
    · simp at h
      simp [he, h, JSNum.ge_of_not_lt hy hx h]

theorem numCompare_desc_le (x y : JSNum) (hx : x ≠ .nan) (hy : y ≠ .nan) :
    ((if x = y then 0 else (if y.lt x = true then 1 else -1) * (-1 : Int)) ≤ 0) ↔
      x.ge y = true := by
  by_cases he : x = y
  · subst he
    simp [JSNum.ge_of_not_lt hx hx (JSNum.lt_irrefl x)]
  · have he' : ¬ y = x := fun h => he h.symm
    have htot : y.lt x = true ∨ x.lt y = true := by
      cases x <;> cases y <;> simp_all [JSNum.lt]
    rcases htot with h | h
    · simp [he, h, JSNum.ge_of_not_lt hx hy (JSNum.lt_asymm h)]
    · have h2 := JSNum.lt_asymm h
      simp [he, h2]
      cases hg : x.ge y
      · rfl
      · rw [JSNum.not_lt_of_ge hg] at h; simp at h

theorem consistentOn_numbers (E : JSEngine) (key : String) (dir : Int)
    (hdir : dir = 1 ∨ dir = -1) (l : List Row) (hnum : ∀ r ∈ l, IsNumber (r.get key)) :
    ConsistentOn (compareRows E key dir) l := by
  refine ⟨?_, ?_, ?_⟩
  · intro a ha
    obtain ⟨x, hx, hxn⟩ := hnum a ha
    rw [compareRows_num E key dir hx hx hxn hxn]; simp
  · intro a ha b hb
    obtain ⟨x, hx, hxn⟩ := hnum a ha
    obtain ⟨y, hy, hyn⟩ := hnum b hb
    rw [compareRows_num E key dir hx hy hxn hyn, compareRows_num E key dir hy hx hyn hxn]
    by_cases he : x = y
    · subst he; simp
    · have he' : ¬ y = x := fun h => he h.symm
      have htot : y.lt x = true ∨ x.lt y = true := by
        cases x <;> cases y <;> simp_all [JSNum.lt]
      rcases htot with h | h
      · have h' := JSNum.lt_asymm h
        rcases hdir with rfl | rfl <;> simp [he, he', h, h']
      · have h' := JSNum.lt_asymm h
        rcases hdir with rfl | rfl <;> simp [he, he', h, h']
  · intro a ha b hb c hc
    obtain ⟨x, hx, hxn⟩ := hnum a ha
    obtain ⟨y, hy, hyn⟩ := hnum b hb
    obtain ⟨z, hz, hzn⟩ := hnum c hc
    rw [compareRows_num E key dir hx hy hxn hyn, compareRows_num E key dir hy hz hyn hzn,
      compareRows_num E key dir hx hz hxn hzn]
    rcases hdir with rfl | rfl
    · rw [numCompare_asc_le x y hxn hyn, numCompare_asc_le y z hyn hzn,
        numCompare_asc_le x z hxn hzn]
      exact fun h1 h2 => JSNum.ge_trans h2 h1
    · rw [numCompare_desc_le x y hxn hyn, numCompare_desc_le y z hyn hzn,
        numCompare_desc_le x z hxn hzn]
      exact fun h1 h2 => JSNum.ge_trans h1 h2

/-! ## UTF-16 code units -/

theorem char_toNat_valid (c : Char) :
    c.toNat < 0xD800 ∨ (0xDFFF < c.toNat ∧ c.toNat < 0x110000) := c.valid

theorem char_eq_of_toNat {c d : Char} (h : c.toNat = d.toNat) : c = d := by
  apply Char.ext
  apply UInt32.ext
  exact h

theorem utf16_injective : ∀ a b : List Char, utf16 a = utf16 b → a = b
  | [], [], _ => rfl
  | [], d :: bs, h => by
    have hd := char_toNat_valid d
    simp only [utf16, utf16Units] at h
    split at h <;> simp at h
  | c :: as, [], h => by
    simp only [utf16, utf16Units] at h
    split at h <;> simp at h
  | c :: as, d :: bs, h => by
    have hc := char_toNat_valid c
    have hd := char_toNat_valid d
    simp only [utf16, utf16Units] at h
    split at h <;> split at h <;>
      simp only [List.cons_append, List.nil_append, List.cons.injEq] at h
    · rw [char_eq_of_toNat h.1, utf16_injective as bs h.2]
    · omega
    · omega
    · obtain ⟨h1, h2, h3⟩ := h
      have : c.toNat = d.toNat := by omega
      rw [char_eq_of_toNat this, utf16_injective as bs h3]

theorem strLt_total {s t : String} (h : s ≠ t) : strLt s t = true ∨ strLt t s = true := by
  have hne : utf16 s.data ≠ utf16 t.data := by
    intro he
    apply h
    have := utf16_injective _ _ he
    exact String.ext this
  simp only [strLt, decide_eq_true_eq]
  exact lt_or_gt_of_ne hne

theorem strLt_irrefl (s : String) : strLt s s = false := by
  simp [strLt]

theorem strLt_trans {a b c : String} (h1 : strLt a b = true) (h2 : strLt b c = true) :
    strLt a c = true := by
  simp only [strLt, decide_eq_true_eq] at *
  exact lt_trans h1 h2

/-! ## The V8 sort conforms -/

theorem ConsistentOn.le_of_not_lt {α : Type} {cmp : α → α → Int} {l : List α}
    (h : ConsistentOn cmp l) {a b : α} (ha : a ∈ l) (hb : b ∈ l) (hab : ¬ cmp a b < 0) :
    cmp b a ≤ 0 := by
  have := (h.2.1 a ha b hb)
  by_contra hc
  exact hab (this.2 (not_le.1 hc))

theorem ConsistentOn.not_lt_of_le {α : Type} {cmp : α → α → Int} {l : List α}
    (h : ConsistentOn cmp l) {a b : α} (ha : a ∈ l) (hb : b ∈ l) (hab : cmp a b ≤ 0) :
    ¬ cmp b a < 0 := by
  intro hc
  have := (h.2.1 b hb a ha).1 hc
  exact absurd hab (not_le.2 this)

theorem ConsistentOn.lt_of_lt_of_le {α : Type} {cmp : α → α → Int} {l : List α}
    (h : ConsistentOn cmp l) {p a b : α} (hp : p ∈ l) (ha : a ∈ l) (hb : b ∈ l)
    (h1 : cmp p a < 0) (h2 : cmp a b ≤ 0) : cmp p b < 0 := by
  by_contra hc
  have h3 := h.le_of_not_lt hp hb hc
  have h4 := h.2.2 a ha b hb p hp h2 h3
  exact h.not_lt_of_le ha hp h4 h1

theorem ConsistentOn.mono {α : Type} {cmp : α → α → Int} {l l' : List α}
    (h : ConsistentOn cmp l) (hs : ∀ x ∈ l', x ∈ l) : ConsistentOn cmp l' :=
  ⟨fun a ha => h.1 a (hs a ha), fun a ha b hb => h.2.1 a (hs a ha) b (hs b hb),
    fun a ha b hb c hc => h.2.2 a (hs a ha) b (hs b hb) c (hs c hc)⟩

theorem orderedInsert_insertAfter {α : Type} (cmp : α → α → Int) (S : List α)
    (h : ConsistentOn cmp S) (a p : α) (ha : a ∈ S) (hp : p ∈ S) :
    ∀ s : List α, (∀ x ∈ s, x ∈ S) →
      (insertAfter cmp p s).orderedInsert (fun a b => cmp a b ≤ 0) a =
        insertAfter cmp p (s.orderedInsert (fun a b => cmp a b ≤ 0) a)
  | [], _ => by
    by_cases hap : cmp a p ≤ 0
    · have := h.not_lt_of_le ha hp hap
      simp [insertAfter, List.orderedInsert, hap, this]
    · have : cmp p a < 0 := (h.2.1 p hp a ha).2 (not_le.1 hap)
      simp [insertAfter, List.orderedInsert, hap, this]
  | x :: t, hs => by
    have hx : x ∈ S := hs x (List.mem_cons_self _ _)
    have ht : ∀ y ∈ t, y ∈ S := fun y hy => hs y (List.mem_cons_of_mem _ hy)
    have ih := orderedInsert_insertAfter cmp S h a p ha hp t ht
    by_cases hpx : cmp p x < 0
    · by_cases hax : cmp a x ≤ 0
      · by_cases hap : cmp a p ≤ 0
        · have := h.not_lt_of_le ha hp hap
          simp [insertAfter, List.orderedInsert, hpx, hax, hap, this]
        · have : cmp p a < 0 := (h.2.1 p hp a ha).2 (not_le.1 hap)
          simp [insertAfter, List.orderedInsert, hpx, hax, hap, this]
      · have hap : ¬ cmp a p ≤ 0 := by
          intro hap
          exact hax (h.2.2 a ha p hp x hx hap (le_of_lt hpx))
        simp [insertAfter, List.orderedInsert, hpx, hax, hap]
    · by_cases hax : cmp a x ≤ 0
      · have hpa : ¬ cmp p a < 0 := by
          intro hpa
          exact hpx (h.lt_of_lt_of_le hp ha hx hpa hax)
        simp [insertAfter, List.orderedInsert, hpx, hax, hpa]
      · simp [insertAfter, List.orderedInsert, hpx, hax, ih]

theorem insertionSort_append_singleton {α : Type} (cmp : α → α → Int) (S : List α)
    (h : ConsistentOn cmp S) (p : α) (hp : p ∈ S) :
    ∀ pre : List α, (∀ x ∈ pre, x ∈ S) →
      arraySort cmp (pre ++ [p]) = insertAfter cmp p (arraySort cmp pre)
  | [], _ => by simp [arraySort, insertAfter]
  | a :: pre, hs => by
    have ha : a ∈ S := hs a (List.mem_cons_self _ _)
    have ht : ∀ y ∈ pre, y ∈ S := fun y hy => hs y (List.mem_cons_of_mem _ hy)
    have ih := insertionSort_append_singleton cmp S h p hp pre ht
    have hmem : ∀ x ∈ arraySort cmp pre, x ∈ S :=
      fun x hx => ht x ((arraySort_perm cmp pre).mem_iff.1 hx)
    show ((pre ++ [p]).insertionSort _).orderedInsert _ a = _
    have ih2 : (pre ++ [p]).insertionSort (fun a b => cmp a b ≤ 0) =
        insertAfter cmp p (arraySort cmp pre) := ih
    rw [ih2, orderedInsert_insertAfter cmp S h a p ha hp _ hmem]
    rfl

theorem insertAfter_split {α : Type} (cmp : α → α → Int) (p : α) :
    ∀ (A B : List α), (∀ x ∈ A, ¬ cmp p x < 0) → (∀ x ∈ B.head?, cmp p x < 0) →
      insertAfter cmp p (A ++ B) = A ++ p :: B
  | [], [], _, _ => rfl
  | [], b :: B, _, hB => by
    have : cmp p b < 0 := hB b (by simp)
    simp [insertAfter, this]
  | a :: A, B, hA, hB => by
    have h1 : ¬ cmp p a < 0 := hA a (List.mem_cons_self _ _)
    have ih := insertAfter_split cmp p A B (fun x hx => hA x (List.mem_cons_of_mem _ hx)) hB
    simp [insertAfter, h1, ih]

theorem searchPos_split {α : Type} (cmp : α → α → Int) (p : α) (A B : List α)
    (hA : ∀ x ∈ A, ¬ cmp p x < 0) (hB : ∀ x ∈ B, cmp p x < 0) :
    ∀ fuel left right, left ≤ A.length → A.length ≤ right → right ≤ (A ++ B).length →
      right - left ≤ fuel → searchPos cmp p (A ++ B) fuel left right = A.length
  | 0, left, right, h1, h2, _, h4 => by
    simp only [searchPos]
    omega
  | fuel + 1, left, right, h1, h2, h3, h4 => by
    simp only [searchPos]
    by_cases hlr : left < right
    · rw [if_pos hlr]
      have hmid : left + (right - left) / 2 < (A ++ B).length := by omega
      have hget : (A ++ B).get? (left + (right - left) / 2) =
          some ((A ++ B).get ⟨_, hmid⟩) := List.get?_eq_get hmid
      simp only [hget]
      by_cases hm : left + (right - left) / 2 < A.length
      · have hx : (A ++ B).get ⟨_, hmid⟩ ∈ A := by
          rw [List.get_eq_getElem, List.getElem_append_left hm]
          exact List.getElem_mem _
        rw [if_neg (hA _ hx)]
        exact searchPos_split cmp p A B hA hB fuel _ _ (by omega) h2 h3 (by omega)
      · have hx : (A ++ B).get ⟨_, hmid⟩ ∈ B := by
          rw [List.get_eq_getElem, List.getElem_append_right (not_lt.1 hm)]
          exact List.getElem_mem _
        rw [if_pos (hB _ hx)]
        exact searchPos_split cmp p A B hA hB fuel _ _ h1 (by omega) (by omega) (by omega)
    · rw [if_neg hlr]
      omega

theorem ConsistentOn.sorted_arraySort {α : Type} {cmp : α → α → Int} {S : List α}
    (h : ConsistentOn cmp S) (l : List α) (hl : ∀ x ∈ l, x ∈ S) :
    (arraySort cmp l).Pairwise (fun a b => cmp a b ≤ 0) := by
  apply pairwise_arraySort_on cmp _ (fun x => x ∈ S) _ _ _ l hl
  · intro a b _ _ hab; exact hab
  · intro a b ha hb hab
    exact le_of_lt ((h.2.1 b hb a ha).2 (not_le.1 hab))
  · intro a b c ha hb hc hab hbc
    exact h.2.2 a ha b hb c hc hab hbc

theorem binaryInsert_eq_insertAfter {α : Type} (cmp : α → α → Int) (S : List α)
    (h : ConsistentOn cmp S) (p : α) (hp : p ∈ S) (s : List α) (hs : ∀ x ∈ s, x ∈ S)
    (hsorted : s.Pairwise (fun a b => cmp a b ≤ 0)) :
    binaryInsert cmp s p = insertAfter cmp p s := by
  let A := s.takeWhile (fun x => decide (¬ cmp p x < 0))
  let B := s.dropWhile (fun x => decide (¬ cmp p x < 0))
  have hAB : A ++ B = s := List.takeWhile_append_dropWhile _ _
  have hA : ∀ x ∈ A, ¬ cmp p x < 0 := by
    intro x hx
    have := List.mem_takeWhile_imp hx
    simpa using this
  have hBsorted : B.Pairwise (fun a b => cmp a b ≤ 0) :=
    hsorted.sublist (List.dropWhile_suffix _).sublist
  have hBmem : ∀ x ∈ B, x ∈ S := fun x hx => hs x ((List.dropWhile_suffix _).subset hx)
  have hB : ∀ x ∈ B, cmp p x < 0 := by
    intro x hx
    match hBeq : B, hx, hBsorted, hBmem with
    | b :: B', hx, hBsorted, hBmem =>
      have hb : cmp p b < 0 := by
        have hh : (s.dropWhile (fun x => decide (¬ cmp p x < 0))).head? = some b := by
          show B.head? = some b
          rw [hBeq]; rfl
        have := List.head?_dropWhile_not (fun x => decide (¬ cmp p x < 0)) s
        rw [hh] at this
        simpa using this
      rcases List.mem_cons.1 hx with rfl | hx
      · exact hb
      · exact h.lt_of_lt_of_le hp (hBmem b (List.mem_cons_self _ _))
          (hBmem x (List.mem_cons_of_mem _ hx)) hb ((List.pairwise_cons.1 hBsorted).1 x hx)
  unfold binaryInsert
  simp only
  rw [← hAB]
  have hpos : searchPos cmp p (A ++ B) ((A ++ B).length + 1) 0 (A ++ B).length = A.length :=
    searchPos_split cmp p A B hA hB _ 0 _ (Nat.zero_le _) (by simp) (le_refl _) (by omega)
  rw [hpos, List.take_left, List.drop_left]
  exact (insertAfter_split cmp p A B hA (fun x hx => hB x (List.mem_of_mem_head? hx))).symm

theorem foldl_binaryInsert {α : Type} (cmp : α → α → Int) (S : List α)
    (h : ConsistentOn cmp S) :
    ∀ (rest pre : List α), (∀ x ∈ pre, x ∈ S) → (∀ x ∈ rest, x ∈ S) →
      rest.foldl (binaryInsert cmp) (arraySort cmp pre) = arraySort cmp (pre ++ rest)
  | [], pre, _, _ => by simp
  | p :: rest, pre, hpre, hrest => by
    have hp : p ∈ S := hrest p (List.mem_cons_self _ _)
    have hmem : ∀ x ∈ arraySort cmp pre, x ∈ S :=
      fun x hx => hpre x ((arraySort_perm cmp pre).mem_iff.1 hx)
    rw [List.foldl_cons, binaryInsert_eq_insertAfter cmp S h p hp _ hmem
      (h.sorted_arraySort pre hpre), ← insertionSort_append_singleton cmp S h p hp pre hpre]
    have ih := foldl_binaryInsert cmp S h rest (pre ++ [p])
      (by
        intro x hx
        rcases List.mem_append.1 hx with hx | hx
        · exact hpre x hx
        · rw [List.mem_singleton.1 hx]; exact hp)
      (fun x hx => hrest x (List.mem_cons_of_mem _ hx))
    rw [ih, List.append_assoc]
    rfl

theorem extendRun_ascending {α : Type} (cmp : α → α → Int) (S : List α)
    (h : ConsistentOn cmp S) :
    ∀ (xs : List α) (prev : α), prev ∈ S → (∀ x ∈ xs, x ∈ S) →
      (prev :: xs.take (extendRun cmp false prev xs)).Pairwise (fun a b => cmp a b ≤ 0)
  | [], prev, _, _ => by simp [extendRun]
  | x :: t, prev, hprev, hxs => by
    have hx : x ∈ S := hxs x (List.mem_cons_self _ _)
    have ht : ∀ y ∈ t, y ∈ S := fun y hy => hxs y (List.mem_cons_of_mem _ hy)
    by_cases ho : 0 ≤ cmp x prev
    · have ih := extendRun_ascending cmp S h t x hx ht
      have hpx : cmp prev x ≤ 0 := h.le_of_not_lt hx hprev (not_lt.2 ho)
      simp only [extendRun, ho, decide_True, Bool.false_eq_true, if_false, if_true,
        List.take_succ_cons]
      rw [List.pairwise_cons]
      refine ⟨?_, ih⟩
      intro y hy
      rcases List.mem_cons.1 hy with rfl | hy
      · exact hpx
      · exact h.2.2 prev hprev x hx y (ht y (List.mem_of_mem_take hy)) hpx
          ((List.pairwise_cons.1 ih).1 y hy)
    · simp [extendRun, ho]

theorem extendRun_descending {α : Type} (cmp : α → α → Int) (S : List α)
    (h : ConsistentOn cmp S) :
    ∀ (xs : List α) (prev : α), prev ∈ S → (∀ x ∈ xs, x ∈ S) →
      (prev :: xs.take (extendRun cmp true prev xs)).Pairwise (fun a b => cmp b a < 0)
  | [], prev, _, _ => by simp [extendRun]
  | x :: t, prev, hprev, hxs => by
    have hx : x ∈ S := hxs x (List.mem_cons_self _ _)
    have ht : ∀ y ∈ t, y ∈ S := fun y hy => hxs y (List.mem_cons_of_mem _ hy)
    by_cases ho : cmp x prev < 0
    · have ih := extendRun_descending cmp S h t x hx ht
      simp only [extendRun, ho, decide_True, if_true, List.take_succ_cons]
      rw [List.pairwise_cons]
      refine ⟨?_, ih⟩
      intro y hy
      rcases List.mem_cons.1 hy with rfl | hy
      · exact ho
      · exact h.lt_of_lt_of_le (ht y (List.mem_of_mem_take hy)) hx hprev
          ((List.pairwise_cons.1 ih).1 y hy) (le_of_lt ho)
    · simp [extendRun, ho]

theorem orderedInsert_last {α : Type} (r : α → α → Prop) [DecidableRel r] (a : α) :
    ∀ s : List α, (∀ y ∈ s, ¬ r a y) → s.orderedInsert r a = s ++ [a]
  | [], _ => rfl
  | x :: t, hs => by
    have hx : ¬ r a x := hs x (List.mem_cons_self _ _)
    have ih := orderedInsert_last r a t (fun y hy => hs y (List.mem_cons_of_mem _ hy))
    simp [List.orderedInsert, hx, ih]

theorem arraySort_descending_run {α : Type} (cmp : α → α → Int) (S : List α)
    (h : ConsistentOn cmp S) :
    ∀ run : List α, (∀ x ∈ run, x ∈ S) → run.Pairwise (fun a b => cmp b a < 0) →
      arraySort cmp run = run.reverse
  | [], _, _ => rfl
  | a :: t, hrun, hp => by
    have ha : a ∈ S := hrun a (List.mem_cons_self _ _)
    have ht : ∀ y ∈ t, y ∈ S := fun y hy => hrun y (List.mem_cons_of_mem _ hy)
    have ih := arraySort_descending_run cmp S h t ht (List.pairwise_cons.1 hp).2
    show (t.insertionSort _).orderedInsert _ a = _
    have ih2 : t.insertionSort (fun a b => cmp a b ≤ 0) = t.reverse := ih
    rw [ih2, List.reverse_cons]
    apply orderedInsert_last
    intro y hy hle
    have hy2 : y ∈ t := List.mem_reverse.1 hy
    exact h.not_lt_of_le ha (ht y hy2) hle ((List.pairwise_cons.1 hp).1 y hy2)

theorem arraySort_of_sorted {α : Type} (cmp : α → α → Int) (run : List α)
    (hp : run.Pairwise (fun a b => cmp a b ≤ 0)) : arraySort cmp run = run :=
  List.Sorted.insertionSort_eq hp

theorem v8SortShort_eq_arraySort {α : Type} (cmp : α → α → Int) (l : List α)
    (h : ConsistentOn cmp l) : v8SortShort cmp l = arraySort cmp l := by
  match l, h with
  | [], _ => rfl
  | [a], _ => rfl
  | a :: b :: rest, h =>
    have ha : a ∈ a :: b :: rest := List.mem_cons_self _ _
    have hb : b ∈ a :: b :: rest := List.mem_cons_of_mem _ (List.mem_cons_self _ _)
    have hrest : ∀ x ∈ rest, x ∈ a :: b :: rest :=
      fun x hx => List.mem_cons_of_mem _ (List.mem_cons_of_mem _ hx)
    have htake : ∀ n, ∀ x ∈ a :: b :: rest.take n, x ∈ a :: b :: rest := by
      intro n x hx
      rcases List.mem_cons.1 hx with rfl | hx
      · exact ha
      · rcases List.mem_cons.1 hx with rfl | hx
        · exact hb
        · exact hrest x (List.mem_of_mem_take hx)
    have hdrop : ∀ n, ∀ x ∈ rest.drop n, x ∈ a :: b :: rest :=
      fun n x hx => hrest x (List.mem_of_mem_drop hx)
    unfold v8SortShort
    simp only [List.take_succ_cons, List.drop_succ_cons]
    by_cases hd : cmp b a < 0
    · have hrun := extendRun_descending cmp _ h rest b hb hrest
      have hrun2 : (a :: b :: rest.take (extendRun cmp true b rest)).Pairwise
          (fun x y => cmp y x < 0) := by
        rw [List.pairwise_cons]
        refine ⟨?_, hrun⟩
        intro y hy
        rcases List.mem_cons.1 hy with rfl | hy
        · exact hd
        · exact h.lt_of_lt_of_le (hrest y (List.mem_of_mem_take hy)) hb ha
            ((List.pairwise_cons.1 hrun).1 y hy) (le_of_lt hd)
      simp only [hd, decide_True, if_true]
      rw [← arraySort_descending_run cmp _ h _ (htake _) hrun2,
        foldl_binaryInsert cmp _ h _ _ (htake _) (hdrop _)]
      simp [List.take_append_drop]
    · have hrun := extendRun_ascending cmp _ h rest b hb hrest
      have hab : cmp a b ≤ 0 := h.le_of_not_lt hb ha hd
      have hrun2 : (a :: b :: rest.take (extendRun cmp false b rest)).Pairwise
          (fun x y => cmp x y ≤ 0) := by
        rw [List.pairwise_cons]
        refine ⟨?_, hrun⟩
        intro y hy
        rcases List.mem_cons.1 hy with rfl | hy
        · exact hab
        · exact h.2.2 a ha b hb y (hrest y (List.mem_of_mem_take hy)) hab
            ((List.pairwise_cons.1 hrun).1 y hy)
      simp only [hd, decide_False, Bool.false_eq_true, if_false]
      have hs := arraySort_of_sorted cmp _ hrun2
      rw [← hs, foldl_binaryInsert cmp _ h _ _ (htake _) (hdrop _)]
      simp [List.take_append_drop]

theorem binaryInsert_perm {α : Type} (cmp : α → α → Int) (s : List α) (p : α) :
    (binaryInsert cmp s p).Perm (p :: s) := by
  unfold binaryInsert
  simp only
  exact List.perm_middle.trans (List.Perm.cons _ (by rw [List.take_append_drop]))

theorem foldl_binaryInsert_perm {α : Type} (cmp : α → α → Int) :
    ∀ (rest start : List α), (rest.foldl (binaryInsert cmp) start).Perm (start ++ rest)
  | [], start => by simp
  | p :: rest, start => by
    rw [List.foldl_cons]
    refine (foldl_binaryInsert_perm cmp rest _).trans ?_
    refine ((binaryInsert_perm cmp start p).append_right rest).trans ?_
    exact (List.perm_middle).symm

theorem v8SortShort_perm {α : Type} (cmp : α → α → Int) (l : List α) :
    (v8SortShort cmp l).Perm l := by
  match l with
  | [] => exact List.Perm.refl _
  | [a] => exact List.Perm.refl _
  | a :: b :: rest =>
    unfold v8SortShort
    simp only
    refine (foldl_binaryInsert_perm cmp _ _).trans ?_
    have hstart : ∀ (d : Bool) (run : List α), (if d = true then run.reverse else run).Perm run := by
      intro d run
      cases d
      · exact List.Perm.refl _
      · exact List.reverse_perm _
    refine ((hstart _ _).append_right _).trans ?_
    rw [List.take_append_drop]

theorem conforms_v8 : Conforms v8Runtime :=
  ⟨by decide, fun cmp l => v8SortShort_perm cmp l,
    fun cmp l h => v8SortShort_eq_arraySort cmp l h⟩

theorem conforms_greek : Conforms greekRuntime :=
  ⟨by decide, fun cmp l => arraySort_perm cmp l, fun _ _ _ => rfl⟩

/-! ## Stability of the sort -/

/-- C2 (amended). The sort stage of `render` is stable wherever the comparator is a
consistent comparator on the rows that pass the filters.  For any runtime that conforms to
the language, when the filters yield `filtered` (a subsequence of `raw`, so in `raw` order)
and the comparator built from `sortKey` and `sortDir` is consistent on `filtered`, `render`
produces an order in which, for every value `v`, the rows whose `sortKey` value is `=== v`
are exactly those of `filtered`, in the same relative order; `sortDir` is arbitrary, so
both directions are covered. -/
theorem render_sort_stable (R : Runtime) (hR : Conforms R) (E : JSEngine) (st : State)
    (rows filtered : List Row)
    (hraw : st.raw = .array rows) (hf : filterRowsIn R st rows = .ok filtered)
    (hcons : ConsistentOn (compareRows E st.sortKey st.sortDir) filtered) :
    filtered.Sublist rows ∧
    ∃ out, renderRowsIn R E st = .ok out ∧
      ∀ v : JSVal, out.filter (fun r => strictEq (r.get st.sortKey) v) =
        filtered.filter (fun r => strictEq (r.get st.sortKey) v) := by
  refine ⟨filterRowsIn_sublist hf, _, renderRowsIn_of_filterRowsIn R E hraw hf, ?_⟩
  intro v
  rw [hR.2.2 _ _ hcons]
  apply arraySort_filter_eq
  intro a b ha hb
  rw [compareRows_of_strictEq E _ _ (strictEq_of_both ha hb)]

/-- Witness for C2 (amended): three rows with numeric scores, two of them 10; the two stay
in `raw` order after the descending sort, here run by the sort of the V8 engine. -/
theorem render_sort_stable_witness :
    Conforms v8Runtime ∧
    filterRowsIn v8Runtime threeRowState [rowAAA, rowBBB, rowCCC] =
      .ok [rowAAA, rowBBB, rowCCC] ∧
    ConsistentOn (compareRows sampleEngine threeRowState.sortKey threeRowState.sortDir)
      [rowAAA, rowBBB, rowCCC] ∧
    renderRowsIn v8Runtime sampleEngine threeRowState = .ok [rowBBB, rowAAA, rowCCC] ∧
    ([rowAAA, rowBBB, rowCCC].Sublist [rowAAA, rowBBB, rowCCC] ∧
    ∃ out, renderRowsIn v8Runtime sampleEngine threeRowState = .ok out ∧
      ∀ v : JSVal, out.filter (fun r => strictEq (r.get threeRowState.sortKey) v) =
        [rowAAA, rowBBB, rowCCC].filter (fun r => strictEq (r.get threeRowState.sortKey) v)) :=
  have hnum : ∀ r ∈ [rowAAA, rowBBB, rowCCC], IsNumber (r.get "score") := by
    intro r hr
    simp only [List.mem_cons, List.mem_singleton, List.not_mem_nil, or_false] at hr
    rcases hr with rfl | rfl | rfl
    · exact ⟨_, rfl, by decide⟩
    · exact ⟨_, rfl, by decide⟩
    · exact ⟨_, rfl, by decide⟩
  have hcons := consistentOn_numbers sampleEngine "score" (-1) (Or.inr rfl) _ hnum
  ⟨conforms_v8, by decide, hcons, by decide,
    render_sort_stable v8Runtime conforms_v8 sampleEngine threeRowState
      [rowAAA, rowBBB, rowCCC] [rowAAA, rowBBB, rowCCC] rfl (by decide) hcons⟩

/-- C2, counterexample.  The rows T0, T1, T2 have the scores `3`, `"b"`, `3` and are sorted
by score ascending.  The comparator answers `-1` for `(T0, T1)` and for `(T1, T0)`, since
neither `3 > "b"` nor `"b" > 3` holds, so it is not consistent.  The sort of the V8 engine
takes the three rows for a descending run and reverses it: `render` shows T2, T1, T0, and
the two rows whose score is `=== 3` have changed places. -/
theorem render_sort_unstable :
    mixedScoreState.raw = .array [rowT0, rowT1, rowT2] ∧
    mixedScoreState.sortKey = "score" ∧ mixedScoreState.sortDir = 1 ∧
    filterRowsIn v8Runtime mixedScoreState [rowT0, rowT1, rowT2] = .ok [rowT0, rowT1, rowT2] ∧
    compareRows sampleEngine "score" 1 rowT0 rowT1 = -1 ∧
    compareRows sampleEngine "score" 1 rowT1 rowT0 = -1 ∧
    compareRows sampleEngine "score" 1 rowT1 rowT2 = -1 ∧
    compareRows sampleEngine "score" 1 rowT2 rowT1 = -1 ∧
    compareRows sampleEngine "score" 1 rowT0 rowT2 = 0 ∧
    renderRowsIn v8Runtime sampleEngine mixedScoreState = .ok [rowT2, rowT1, rowT0] ∧
    [rowT2, rowT1, rowT0].filter (fun r => strictEq (r.get "score") (.ofRat 3)) =
      [rowT2, rowT0] ∧
    [rowT0, rowT1, rowT2].filter (fun r => strictEq (r.get "score") (.ofRat 3)) =
      [rowT0, rowT2] ∧
    [rowT2, rowT0] ≠ [rowT0, rowT2] ∧
    ¬ ConsistentOn (compareRows sampleEngine "score" 1) [rowT0, rowT1, rowT2] := by
  refine ⟨by decide, by decide, by decide, by decide, by decide, by decide, by decide,
    by decide, by decide, by decide, by decide, by decide, by decide, ?_⟩
  intro h
  have h1 := (h.2.1 rowT0 (by simp) rowT1 (by simp)).1 (by decide)
  revert h1
  decide

/-! ## The text filter over a runtime -/

theorem lowerOfIn_str (R : Runtime) (s : String) :
    lowerOfIn R (.str s) = .ok (R.toLowerCase s) := by
  by_cases h : s = ""
  · subst h; rfl
  · simp [lowerOfIn, jsOr, JSVal.truthy, h]

theorem lowerOfIn_textual (R : Runtime) {v : JSVal} (h : Textual v) :
    ∃ t, lowerOfIn R v = .ok t := by
  rcases h with h | ⟨s, rfl⟩
  · exact ⟨R.toLowerCase "", by simp [lowerOfIn, jsOr, h]⟩
  · exact ⟨_, lowerOfIn_str R s⟩

theorem textMatchIn_total (R : Runtime) (q : String) {r : Row}
    (ht : Textual (r.get "ticker")) (hc : Textual (r.get "company")) :
    ∃ b, textMatchIn R q r = .ok b := by
  obtain ⟨t, ht⟩ := lowerOfIn_textual R ht
  obtain ⟨c, hc⟩ := lowerOfIn_textual R hc
  unfold textMatchIn
  rw [ht]
  by_cases hi : includes t q = true
  · exact ⟨true, by simp [hi]⟩
  · exact ⟨includes c q, by simp [hi, hc]⟩

theorem textMatchIn_of_matches (R : Runtime) {search : String} {r : Row}
    (ht : Textual (r.get "ticker"))
    (hm : MatchesQuery R search (r.get "ticker") ∨ MatchesQuery R search (r.get "company")) :
    textMatchIn R (R.toLowerCase (trim search)) r = .ok true := by
  unfold textMatchIn
  rcases hm with ⟨s, hs, hin⟩ | ⟨s, hs, hin⟩
  · rw [hs, lowerOfIn_str]
    have : includes (R.toLowerCase s) (R.toLowerCase (trim search)) = true := by
      simp only [includes, decide_eq_true_eq]; exact hin
    simp [this]
  · obtain ⟨t, ht⟩ := lowerOfIn_textual R ht
    rw [ht]
    by_cases hi : includes t (R.toLowerCase (trim search)) = true
    · simp [hi]
    · rw [hs, lowerOfIn_str]
      have : includes (R.toLowerCase s) (R.toLowerCase (trim search)) = true := by
        simp only [includes, decide_eq_true_eq]; exact hin
      simp [hi, this]

theorem trim_eq_empty {s : String} (h : ∀ c ∈ s.data, isWhiteSpace c = true) :
    trim s = "" := by
  have h1 : s.data.dropWhile isWhiteSpace = [] := List.dropWhile_eq_nil_iff.2 h
  simp [trim, h1]

/-- C4 (amended). Let `row` be a row of `raw` that the sector filter and the pass-only
filter do not exclude, the runtime one whose `toLowerCase` leaves the empty string empty and
whose `sort` rearranges its input.  If the search text consists of white space only (in
particular if it is empty), `row` is rendered.  If the trimmed search text, lower-cased by
`toLowerCase`, is a substring of the lower-cased string `row.ticker` or of the lower-cased
string `row.company`, `row` is rendered provided every row of `raw` has a ticker and a
company that are strings or falsy values. -/
theorem text_filter_retains (R : Runtime) (E : JSEngine) (st : State) (rows : List Row)
    (row : Row)
    (hlow : R.toLowerCase "" = "")
    (hperm : ∀ (cmp : Row → Row → Int) (l : List Row), (R.sort cmp l).Perm l)
    (hraw : st.raw = .array rows) (hrow : row ∈ rows)
    (hsec : st.sector = "" ∨ st.sector = "ALL" ∨ row.get "sector" = .str st.sector)
    (hpass : st.onlyPass = false ∨ row.get "pass" = .bool true)
    (hq : (∀ c ∈ st.search.data, isWhiteSpace c = true) ∨
      ((∀ r ∈ rows, Textual (r.get "ticker") ∧ Textual (r.get "company")) ∧
        (MatchesQuery R st.search (row.get "ticker") ∨
          MatchesQuery R st.search (row.get "company")))) :
    ∃ out, renderRowsIn R E st = .ok out ∧ row ∈ out ∧
      renderIn R E st = .ok { st with tbody := out.map (projectRow E) } ∧
      projectRow E row ∈ out.map (projectRow E) := by
  have key : ∃ rows1, textStageIn R (queryIn R st) rows = .ok rows1 ∧ row ∈ rows1 := by
    rcases hq with hq | ⟨hwf, hm⟩
    · refine ⟨rows, ?_, hrow⟩
      simp [textStageIn, queryIn, trim_eq_empty hq, hlow]
    · by_cases hne : queryIn R st ≠ ""
      · obtain ⟨l, hl, hmem⟩ := filterExcept_total (textMatchIn R (queryIn R st)) rows
          (fun r hr => textMatchIn_total R _ (hwf r hr).1 (hwf r hr).2)
        refine ⟨l, by simp [textStageIn, hne, hl], hmem row hrow ?_⟩
        exact textMatchIn_of_matches R (hwf row hrow).1 hm
      · exact ⟨rows, by simp [textStageIn, hne], hrow⟩
  obtain ⟨rows1, h1, hR1⟩ := key
  have hf : filterRowsIn R st rows =
      .ok (passStage st.onlyPass (sectorStage st.sector rows1)) := by
    simp [filterRowsIn, h1]
  have hr := renderRowsIn_of_filterRowsIn R E hraw hf
  have hmem : row ∈ R.sort (compareRows E st.sortKey st.sortDir)
      (passStage st.onlyPass (sectorStage st.sector rows1)) :=
    (hperm _ _).mem_iff.2 (mem_passStage (mem_sectorStage hR1 hsec) hpass)
  refine ⟨_, hr, hmem, ?_, List.mem_map_of_mem _ hmem⟩
  simp [renderIn, hr]

/-- Witness for C4 (amended): rows AAA and BBB, search text `aA`; AAA is rendered. -/
theorem text_filter_retains_witness :
    MatchesQuery referenceRuntime searchState.search (rowAAA.get "ticker") ∧
    (∃ out, renderRowsIn referenceRuntime sampleEngine searchState = .ok out ∧ rowAAA ∈ out ∧
      renderIn referenceRuntime sampleEngine searchState =
        .ok { searchState with tbody := out.map (projectRow sampleEngine) } ∧
      projectRow sampleEngine rowAAA ∈ out.map (projectRow sampleEngine)) :=
  have hm : MatchesQuery referenceRuntime searchState.search (rowAAA.get "ticker") :=
    ⟨"AAA", by decide, by decide⟩
  have hwf : ∀ r ∈ [rowAAA, rowBBB], Textual (r.get "ticker") ∧ Textual (r.get "company") := by
    intro r hr
    simp only [List.mem_cons, List.mem_singleton, List.not_mem_nil, or_false] at hr
    rcases hr with rfl | rfl
    · exact ⟨Or.inr ⟨"AAA", by decide⟩, Or.inl (by decide)⟩
    · exact ⟨Or.inr ⟨"BBB", by decide⟩, Or.inl (by decide)⟩
  ⟨hm, text_filter_retains referenceRuntime sampleEngine searchState [rowAAA, rowBBB] rowAAA
    (by decide) conforms_reference.2.1 rfl (by decide)
    (Or.inl rfl) (Or.inl rfl) (Or.inr ⟨hwf, Or.inl hm⟩)⟩

/-- C4, counterexample, in two parts.  First, the only row has the numeric ticker `5` and
the company `Apple`; the search text `app` is a substring of the company when case is
ignored, no other filter is active, yet `render` throws a `TypeError` on `(5).toLowerCase`
and the table stays empty.  Second, the only row has the Greek company name `ΟΣΟ` and the
search text is `ΟΣ`, literally its first two characters; `toLowerCase` turns the search
text into `ος`, with a final sigma, and the company into `οσο`, so the row is not
rendered. -/
theorem text_filter_throws :
    (rowNumericTicker ∈ [rowNumericTicker] ∧
    numericTickerState.raw = .array [rowNumericTicker] ∧
    rowNumericTicker.get "company" = .str "Apple" ∧
    (toLowerCase (trim numericTickerState.search)).data <:+: (toLowerCase "Apple").data ∧
    numericTickerState.sector = "" ∧ numericTickerState.onlyPass = false ∧
    renderRows sampleEngine numericTickerState = .error .typeError ∧
    (renderOrKeep sampleEngine numericTickerState).tbody = []) ∧
    (greekState.raw = .array [rowGreek] ∧
    rowGreek.get "ticker" = .str "GR" ∧
    rowGreek.get "company" = .str "ΟΣΟ" ∧
    greekState.search = "ΟΣ" ∧
    (trim greekState.search).data <:+: "ΟΣΟ".data ∧
    greekState.sector = "" ∧ greekState.onlyPass = false ∧
    greekRuntime.toLowerCase "" = "" ∧
    greekRuntime.toLowerCase (trim greekState.search) = "ος" ∧
    greekRuntime.toLowerCase "ΟΣΟ" = "οσο" ∧
    renderRowsIn greekRuntime sampleEngine greekState = .ok [] ∧
    renderIn greekRuntime sampleEngine greekState = .ok { greekState with tbody := [] }) := by
  decide

/-! ## Two header clicks over a runtime -/

theorem jsLt_irrefl (E : JSEngine) (v : JSVal) : jsLt E v v = false := by
  cases v <;> simp [jsLt, JSNum.lt_irrefl, strLt_irrefl]

theorem jsLt_asymm (E : JSEngine) {a b : JSVal} (h : jsLt E a b = true) : jsLt E b a = false := by
  cases a <;> cases b <;> simp only [jsLt] at h ⊢ <;>
    first
    | exact JSNum.lt_asymm h
    | (cases hs : strLt _ _
       · rfl
       · exact absurd hs (strLt_asymm h))

theorem JSNum.lt_nan (x : JSNum) : x.lt .nan = false := by
  cases x <;> rfl

theorem JSNum.nan_lt (x : JSNum) : JSNum.lt .nan x = false := by
  cases x <;> rfl

theorem jsGt_nan_left (E : JSEngine) (v : JSVal) : jsGt E (.num .nan) v = false := by
  cases v <;> simp only [jsGt, jsLt, toNumber] <;> exact JSNum.lt_nan _

theorem jsGt_nan_right (E : JSEngine) (v : JSVal) : jsGt E v (.num .nan) = false := by
  cases v <;> simp only [jsGt, jsLt, toNumber] <;> exact JSNum.nan_lt _

theorem StrictlyOrdered.total {E : JSEngine} {key : String} {l : List Row}
    (h : StrictlyOrdered E key l) {a b : Row} (ha : a ∈ l) (hb : b ∈ l) (hab : a ≠ b) :
    jsGt E (a.get key) (b.get key) = true ∨ jsGt E (b.get key) (a.get key) = true :=
  h.2.1.forall (fun _ _ hxy => hxy.symm) ha hb hab

theorem StrictlyOrdered.nodup {E : JSEngine} {key : String} {l : List Row}
    (h : StrictlyOrdered E key l) : l.Nodup := by
  refine h.2.1.imp ?_
  intro a b hab he
  subst he
  have := jsLt_irrefl E (a.get key)
  simp [jsGt, this] at hab

theorem StrictlyOrdered.strictEq_self {E : JSEngine} {key : String} {l : List Row}
    (h : StrictlyOrdered E key l) {x y : Row} (hx : x ∈ l) (hy : y ∈ l) (hxy : x ≠ y)
    {a : Row} (ha : a ∈ l) : strictEq (a.get key) (a.get key) = true := by
  rw [strictEq_iff]
  refine ⟨rfl, ?_⟩
  intro hnan
  have hpartner : ∃ b ∈ l, a ≠ b := by
    by_cases hax : a = x
    · exact ⟨y, hy, by rw [hax]; exact hxy⟩
    · exact ⟨x, hx, hax⟩
  obtain ⟨b, hb, hab⟩ := hpartner
  rcases h.total ha hb hab with g | g
  · rw [hnan, jsGt_nan_left] at g; cases g
  · rw [hnan, jsGt_nan_right] at g; cases g

theorem StrictlyOrdered.compareRows_eq {E : JSEngine} {key : String} {l : List Row}
    (h : StrictlyOrdered E key l) {x y : Row} (hx : x ∈ l) (hy : y ∈ l) (hxy : x ≠ y)
    (dir : Int) {a b : Row} (ha : a ∈ l) (hb : b ∈ l) :
    compareRows E key dir a b =
      if a = b then 0 else (if jsGt E (a.get key) (b.get key) = true then 1 else -1) * dir := by
  by_cases hab : a = b
  · subst hab
    rw [compareRows_of_strictEq E key dir (h.strictEq_self hx hy hxy ha)]
    simp
  · have hne : strictEq (a.get key) (b.get key) = false := by
      cases hs : strictEq (a.get key) (b.get key)
      · rfl
      · rw [strictEq_iff] at hs
        rcases h.total ha hb hab with g | g
        · rw [hs.1, jsGt, jsLt_irrefl] at g; cases g
        · rw [hs.1, jsGt, jsLt_irrefl] at g; cases g
    simp [compareRows, hne, h.1 a ha, h.1 b hb, hab]

theorem StrictlyOrdered.asc_le_iff {E : JSEngine} {key : String} {l : List Row}
    (h : StrictlyOrdered E key l) {x y : Row} (hx : x ∈ l) (hy : y ∈ l) (hxy : x ≠ y)
    {a b : Row} (ha : a ∈ l) (hb : b ∈ l) :
    compareRows E key 1 a b ≤ 0 ↔ (a = b ∨ jsGt E (b.get key) (a.get key) = true) := by
  rw [h.compareRows_eq hx hy hxy 1 ha hb]
  by_cases hab : a = b
  · simp [hab]
  · rcases h.total ha hb hab with g | g
    · have g2 : jsGt E (b.get key) (a.get key) = false := jsLt_asymm E g
      simp [hab, g, g2]
    · have g2 : jsGt E (a.get key) (b.get key) = false := jsLt_asymm E g
      simp [hab, g, g2]

theorem StrictlyOrdered.desc_le_iff {E : JSEngine} {key : String} {l : List Row}
    (h : StrictlyOrdered E key l) {x y : Row} (hx : x ∈ l) (hy : y ∈ l) (hxy : x ≠ y)
    {a b : Row} (ha : a ∈ l) (hb : b ∈ l) :
    compareRows E key (-1) a b ≤ 0 ↔ (a = b ∨ jsGt E (a.get key) (b.get key) = true) := by
  rw [h.compareRows_eq hx hy hxy (-1) ha hb]
  by_cases hab : a = b
  · simp [hab]
  · rcases h.total ha hb hab with g | g
    · simp [hab, g]
    · have g2 : jsGt E (a.get key) (b.get key) = false := jsLt_asymm E g
      simp [hab, g2]

theorem StrictlyOrdered.consistentOn {E : JSEngine} {key : String} {l : List Row}
    (h : StrictlyOrdered E key l) {x y : Row} (hx : x ∈ l) (hy : y ∈ l) (hxy : x ≠ y)
    (dir : Int) (hdir : dir = 1 ∨ dir = -1) :
    ConsistentOn (compareRows E key dir) l := by
  refine ⟨?_, ?_, ?_⟩
  · intro a ha
    exact compareRows_of_strictEq E key dir (h.strictEq_self hx hy hxy ha)
  · intro a ha b hb
    rw [h.compareRows_eq hx hy hxy dir ha hb, h.compareRows_eq hx hy hxy dir hb ha]
    by_cases hab : a = b
    · subst hab; simp
    · have hba : ¬ b = a := fun e => hab e.symm
      rcases h.total ha hb hab with g | g
      · have g2 : jsGt E (b.get key) (a.get key) = false := jsLt_asymm E g
        rcases hdir with rfl | rfl <;> simp [hab, hba, g, g2]
      · have g2 : jsGt E (a.get key) (b.get key) = false := jsLt_asymm E g
        rcases hdir with rfl | rfl <;> simp [hab, hba, g, g2]
  · intro a ha b hb c hc
    rcases hdir with rfl | rfl
    · rw [h.asc_le_iff hx hy hxy ha hb, h.asc_le_iff hx hy hxy hb hc,
        h.asc_le_iff hx hy hxy ha hc]
      rintro (rfl | g1) (rfl | g2)
      · exact Or.inl rfl
      · exact Or.inr g2
      · exact Or.inr g1
      · exact Or.inr (h.2.2 c hc b hb a ha g2 g1)
    · rw [h.desc_le_iff hx hy hxy ha hb, h.desc_le_iff hx hy hxy hb hc,
        h.desc_le_iff hx hy hxy ha hc]
      rintro (rfl | g1) (rfl | g2)
      · exact Or.inl rfl
      · exact Or.inr g2
      · exact Or.inr g1
      · exact Or.inr (h.2.2 a ha b hb c hc g1 g2)

instance jsGt_antisymm (E : JSEngine) (key : String) :
    IsAntisymm Row (fun a b => jsGt E (a.get key) (b.get key) = true) :=
  ⟨fun _ _ h1 h2 => by rw [jsGt, jsLt_asymm E h2] at h1; cases h1⟩

theorem StrictlyOrdered.arraySort_flip {E : JSEngine} {key : String} {l : List Row}
    (h : StrictlyOrdered E key l) {x y : Row} (hx : x ∈ l) (hy : y ∈ l) (hxy : x ≠ y) :
    arraySort (compareRows E key (-1)) l = (arraySort (compareRows E key 1) l).reverse := by
  have hasc0 : (arraySort (compareRows E key 1) l).Pairwise
      (fun a b => a = b ∨ jsGt E (b.get key) (a.get key) = true) := by
    apply pairwise_arraySort_on _ _ (fun r => r ∈ l) _ _ _ l (fun _ hr => hr)
    · intro a b ha hb hle
      exact (h.asc_le_iff hx hy hxy ha hb).1 hle
    · intro a b ha hb hle
      rw [h.asc_le_iff hx hy hxy ha hb] at hle
      push_neg at hle
      rcases h.total ha hb hle.1 with g | g
      · exact Or.inr g
      · exact absurd g hle.2
    · rintro a b c ha hb hc (rfl | g1) (rfl | g2)
      · exact Or.inl rfl
      · exact Or.inr g2
      · exact Or.inr g1
      · exact Or.inr (h.2.2 c hc b hb a ha g2 g1)
  have hdesc0 : (arraySort (compareRows E key (-1)) l).Pairwise
      (fun a b => a = b ∨ jsGt E (a.get key) (b.get key) = true) := by
    apply pairwise_arraySort_on _ _ (fun r => r ∈ l) _ _ _ l (fun _ hr => hr)
    · intro a b ha hb hle
      exact (h.desc_le_iff hx hy hxy ha hb).1 hle
    · intro a b ha hb hle
      rw [h.desc_le_iff hx hy hxy ha hb] at hle
      push_neg at hle
      rcases h.total ha hb hle.1 with g | g
      · exact absurd g hle.2
      · exact Or.inr g
    · rintro a b c ha hb hc (rfl | g1) (rfl | g2)
      · exact Or.inl rfl
      · exact Or.inr g2
      · exact Or.inr g1
      · exact Or.inr (h.2.2 a ha b hb c hc g1 g2)
  have hnd1 : (arraySort (compareRows E key 1) l).Nodup :=
    (arraySort_perm _ l).nodup_iff.2 h.nodup
  have hnd2 : (arraySort (compareRows E key (-1)) l).Nodup :=
    (arraySort_perm _ l).nodup_iff.2 h.nodup
  have hasc : (arraySort (compareRows E key 1) l).Pairwise
      (fun a b => jsGt E (b.get key) (a.get key) = true) :=
    (hasc0.and hnd1).imp (fun hab => hab.1.resolve_left hab.2)
  have hdesc : (arraySort (compareRows E key (-1)) l).Pairwise
      (fun a b => jsGt E (a.get key) (b.get key) = true) :=
    (hdesc0.and hnd2).imp (fun hab => hab.1.resolve_left hab.2)
  have hrev : ((arraySort (compareRows E key 1) l).reverse).Pairwise
      (fun a b => jsGt E (a.get key) (b.get key) = true) := List.pairwise_reverse.2 hasc
  have hperm : (arraySort (compareRows E key (-1)) l).Perm
      (arraySort (compareRows E key 1) l).reverse :=
    ((arraySort_perm _ l).trans (arraySort_perm _ l).symm).trans (List.reverse_perm _).symm
  exact List.eq_of_perm_of_sorted hperm hdesc hrev

theorem StrictlyOrdered.sort_flip {R : Runtime} (hR : Conforms R) {E : JSEngine}
    {key : String} {l : List Row} (h : StrictlyOrdered E key l) :
    R.sort (compareRows E key (-1)) l = (R.sort (compareRows E key 1) l).reverse := by
  match l, h with
  | [], _ =>
    rw [List.perm_nil.1 (hR.2.1 _ []), List.perm_nil.1 (hR.2.1 _ [])]; rfl
  | [a], _ =>
    rw [List.perm_singleton.1 (hR.2.1 _ [a]), List.perm_singleton.1 (hR.2.1 _ [a])]; rfl
  | x :: y :: t, h =>
    have hx : x ∈ x :: y :: t := List.mem_cons_self _ _
    have hy : y ∈ x :: y :: t := List.mem_cons_of_mem _ (List.mem_cons_self _ _)
    have hxy : x ≠ y := by
      have := h.nodup
      rw [List.nodup_cons] at this
      intro e
      exact this.1 (e ▸ List.mem_cons_self _ _)
    rw [hR.2.2 _ _ (h.consistentOn hx hy hxy (-1) (Or.inr rfl)),
      hR.2.2 _ _ (h.consistentOn hx hy hxy 1 (Or.inl rfl))]
    exact h.arraySort_flip hx hy hxy

theorem strictlyOrdered_of_numbers (E : JSEngine) (key : String) (l : List Row)
    (hnum : ∀ r ∈ l, IsNumber (r.get key)) (hnd : (l.map (fun r => r.get key)).Nodup) :
    StrictlyOrdered E key l := by
  refine ⟨?_, ?_, ?_⟩
  · intro r hr
    obtain ⟨n, hn, _⟩ := hnum r hr
    rw [hn]; rfl
  · have hp : l.Pairwise (fun a b => a.get key ≠ b.get key) := List.pairwise_map.1 hnd
    have hall : l.Pairwise (fun a b => IsNumber (a.get key) ∧ IsNumber (b.get key)) := by
      rw [List.pairwise_iff_forall_sublist]
      intro a b hab
      exact ⟨hnum a (hab.subset (by simp)), hnum b (hab.subset (by simp))⟩
    refine (hp.and hall).imp ?_
    rintro a b ⟨hne, ⟨m, hm, hmn⟩, ⟨n, hn, hnn⟩⟩
    rw [hm, hn] at hne ⊢
    have hmn2 : m ≠ n := fun e => hne (by rw [e])
    have hnm2 : ¬ n = m := fun e => hmn2 e.symm
    simp only [jsGt, jsLt, toNumber]
    cases m <;> cases n <;> simp_all [JSNum.lt]
  · intro a ha b hb c hc
    obtain ⟨m, hm, hmn⟩ := hnum a ha
    obtain ⟨n, hn, hnn⟩ := hnum b hb
    obtain ⟨k, hk, hkn⟩ := hnum c hc
    rw [hm, hn, hk]
    simp only [jsGt, jsLt, toNumber]
    intro h1 h2
    cases m <;> cases n <;> cases k <;> simp_all [JSNum.lt]
    exact lt_trans h2 h1

theorem strictlyOrdered_of_strings (E : JSEngine) (key : String) (l : List Row)
    (hstr : ∀ r ∈ l, ∃ s, r.get key = .str s) (hnd : (l.map (fun r => r.get key)).Nodup) :
    StrictlyOrdered E key l := by
  refine ⟨?_, ?_, ?_⟩
  · intro r hr
    obtain ⟨s, hs⟩ := hstr r hr
    rw [hs]; rfl
  · have hp : l.Pairwise (fun a b => a.get key ≠ b.get key) := List.pairwise_map.1 hnd
    have hall : l.Pairwise (fun a b => (∃ s, a.get key = .str s) ∧ ∃ s, b.get key = .str s) := by
      rw [List.pairwise_iff_forall_sublist]
      intro a b hab
      exact ⟨hstr a (hab.subset (by simp)), hstr b (hab.subset (by simp))⟩
    refine (hp.and hall).imp ?_
    rintro a b ⟨hne, ⟨s, hs⟩, ⟨t, ht⟩⟩
    rw [hs, ht] at hne ⊢
    have hst : s ≠ t := fun e => hne (by rw [e])
    simp only [jsGt, jsLt]
    exact (strLt_total hst).symm
  · intro a ha b hb c hc
    obtain ⟨s, hs⟩ := hstr a ha
    obtain ⟨t, ht⟩ := hstr b hb
    obtain ⟨u, hu⟩ := hstr c hc
    rw [hs, ht, hu]
    simp only [jsGt, jsLt]
    exact fun h1 h2 => strLt_trans h2 h1

theorem renderIn_tbody (R : Runtime) (E : JSEngine) {st : State} {out : List Row}
    (h : renderRowsIn R E st = .ok out) :
    renderOrKeepIn R E st = { st with tbody := out.map (projectRow E) } := by
  simp [renderOrKeepIn, renderIn, h]

theorem headerClickIn_eq (R : Runtime) (E : JSEngine) (key : String) (st : State) :
    headerClickIn R E key st =
      renderOrKeepIn R E { st with sortKey := key,
                                   sortDir := if st.sortKey = key then st.sortDir * -1 else -1 } := by
  unfold headerClickIn
  by_cases h : st.sortKey = key
  · subst h; simp
  · simp [h]

/-- C3 (amended). For any runtime that conforms to the language: when no row that passes
the filters has a `null` or `undefined` value under `key` and `>` strictly orders these
values (as it does when they are pairwise distinct numbers other than `NaN`, or pairwise
distinct strings), two successive clicks on the header of `key` leave the table in exactly
the reverse of the order it had after the first click. -/
theorem two_clicks_reverse (R : Runtime) (hR : Conforms R) (E : JSEngine) (st : State)
    (key : String) (rows filtered : List Row)
    (hraw : st.raw = .array rows) (hf : filterRowsIn R st rows = .ok filtered)
    (hdir : st.sortDir = 1 ∨ st.sortDir = -1)
    (hord : StrictlyOrdered E key filtered) :
    ∃ out, renderRowsIn R E (headerClickIn R E key st) = .ok out ∧
      renderRowsIn R E (headerClickIn R E key (headerClickIn R E key st)) = .ok out.reverse ∧
      (headerClickIn R E key (headerClickIn R E key st)).tbody =
        (headerClickIn R E key st).tbody.reverse := by
  have hrev := hord.sort_flip hR
  have hrev2 : R.sort (compareRows E key 1) filtered =
      (R.sort (compareRows E key (-1)) filtered).reverse := by
    rw [hrev, List.reverse_reverse]
  -- first click
  let d1 : Int := if st.sortKey = key then st.sortDir * -1 else -1
  have hd1 : d1 = 1 ∨ d1 = -1 := by
    simp only [d1]
    split
    · rcases hdir with h | h <;> simp [h]
    · right; rfl
  let s1 : State := { st with sortKey := key, sortDir := d1 }
  have hf1 : filterRowsIn R s1 rows = .ok filtered := hf
  have hr1 : renderRowsIn R E s1 = .ok (R.sort (compareRows E key d1) filtered) :=
    @renderRowsIn_of_filterRowsIn R E s1 rows filtered hraw hf1
  have hc1 : headerClickIn R E key st =
      { s1 with tbody := (R.sort (compareRows E key d1) filtered).map (projectRow E) } := by
    rw [headerClickIn_eq]; exact renderIn_tbody R E hr1
  -- second click
  let t1 : State :=
    { s1 with tbody := (R.sort (compareRows E key d1) filtered).map (projectRow E) }
  let s2 : State := { t1 with sortKey := key, sortDir := d1 * -1 }
  have hf2 : filterRowsIn R s2 rows = .ok filtered := hf
  have hr2 : renderRowsIn R E s2 = .ok (R.sort (compareRows E key (d1 * -1)) filtered) :=
    @renderRowsIn_of_filterRowsIn R E s2 rows filtered hraw hf2
  have hc2 : headerClickIn R E key t1 =
      { s2 with tbody := (R.sort (compareRows E key (d1 * -1)) filtered).map (projectRow E) } := by
    rw [headerClickIn_eq]
    have : ({ t1 with sortKey := key,
                      sortDir := if t1.sortKey = key then t1.sortDir * -1 else -1 } : State)
        = s2 := by
      simp [t1, s1, s2]
    rw [this]; exact renderIn_tbody R E hr2
  have hflip : R.sort (compareRows E key (d1 * -1)) filtered =
      (R.sort (compareRows E key d1) filtered).reverse := by
    rcases hd1 with h | h
    · rw [h]; simpa using hrev
    · rw [h]; simpa using hrev2
  refine ⟨R.sort (compareRows E key d1) filtered, ?_, ?_, ?_⟩
  · rw [hc1]; exact @renderRowsIn_of_filterRowsIn R E t1 rows filtered hraw hf
  · rw [hc1, hc2, ← hflip]
    exact @renderRowsIn_of_filterRowsIn R E { s2 with tbody := _ } rows filtered hraw hf
  · rw [hc1, hc2]
    show (R.sort (compareRows E key (d1 * -1)) filtered).map (projectRow E) =
      ((R.sort (compareRows E key d1) filtered).map (projectRow E)).reverse
    rw [hflip, List.map_reverse]

/-- Witness for C3 (amended): rows AAA and BBB, clicked on the string column `ticker`; the
first click gives BBB, AAA, the second click the reverse. -/
theorem two_clicks_reverse_witness :
    Conforms v8Runtime ∧
    filterRowsIn v8Runtime twoRowState [rowAAA, rowBBB] = .ok [rowAAA, rowBBB] ∧
    StrictlyOrdered sampleEngine "ticker" [rowAAA, rowBBB] ∧
    (headerClickIn v8Runtime sampleEngine "ticker" twoRowState).tbody.map
      (fun t => t.ticker) = ["BBB", "AAA"] ∧
    ∃ out, renderRowsIn v8Runtime sampleEngine
        (headerClickIn v8Runtime sampleEngine "ticker" twoRowState) = .ok out ∧
      renderRowsIn v8Runtime sampleEngine
        (headerClickIn v8Runtime sampleEngine "ticker"
          (headerClickIn v8Runtime sampleEngine "ticker" twoRowState))
          = .ok out.reverse ∧
      (headerClickIn v8Runtime sampleEngine "ticker"
        (headerClickIn v8Runtime sampleEngine "ticker" twoRowState)).tbody =
        (headerClickIn v8Runtime sampleEngine "ticker" twoRowState).tbody.reverse :=
  have h1 : ∀ r ∈ [rowAAA, rowBBB], ∃ s, r.get "ticker" = .str s := by
    intro r hr
    simp only [List.mem_cons, List.mem_singleton, List.not_mem_nil, or_false] at hr
    rcases hr with rfl | rfl
    · exact ⟨"AAA", by decide⟩
    · exact ⟨"BBB", by decide⟩
  have h2 : ([rowAAA, rowBBB].map (fun r => r.get "ticker")).Nodup := by decide
  have hord := strictlyOrdered_of_strings sampleEngine "ticker" [rowAAA, rowBBB] h1 h2
  ⟨conforms_v8, by decide, hord, by decide,
    two_clicks_reverse v8Runtime conforms_v8 sampleEngine twoRowState "ticker"
      [rowAAA, rowBBB] [rowAAA, rowBBB] rfl (by decide) (Or.inr rfl) hord⟩

/-- C3, counterexample, in three parts, each evaluated with the sort of the V8 engine.
Two rows with the same score: after the first click on `score` the table reads AAA, CCC;
after the second click it still reads AAA, CCC.  Two rows with the distinct scores `10`
and `null`: the row without a score is last after either click, AAA, NUL both times.  Five
rows with the pairwise distinct scores `2, 3, "n/a", 1, 4`, where neither `"n/a" > n` nor
`n > "n/a"` holds for a number `n`: the first click gives S1, SX, S2, S3, S4 and the second
S3, S2, SX, S4, S1.  In no case is the second order the reverse of the first. -/
theorem two_clicks_not_reverse :
    ((headerClickIn v8Runtime sampleEngine "score" tiedState).tbody.map (fun t => t.ticker)
      = ["AAA", "CCC"] ∧
    (headerClickIn v8Runtime sampleEngine "score"
      (headerClickIn v8Runtime sampleEngine "score" tiedState)).tbody.map (fun t => t.ticker)
        = ["AAA", "CCC"] ∧
    (headerClickIn v8Runtime sampleEngine "score"
      (headerClickIn v8Runtime sampleEngine "score" tiedState)).tbody ≠
      (headerClickIn v8Runtime sampleEngine "score" tiedState).tbody.reverse) ∧
    (([rowAAA, rowNullScore].map (fun r => r.get "score")).Nodup ∧
    (headerClickIn v8Runtime sampleEngine "score" nullScoreState).tbody.map
      (fun t => t.ticker) = ["AAA", "NUL"] ∧
    (headerClickIn v8Runtime sampleEngine "score"
      (headerClickIn v8Runtime sampleEngine "score" nullScoreState)).tbody.map
        (fun t => t.ticker) = ["AAA", "NUL"] ∧
    (headerClickIn v8Runtime sampleEngine "score"
      (headerClickIn v8Runtime sampleEngine "score" nullScoreState)).tbody ≠
      (headerClickIn v8Runtime sampleEngine "score" nullScoreState).tbody.reverse) ∧
    (([rowS2, rowS3, rowSX, rowS1, rowS4].map (fun r => r.get "score")).Nodup ∧
    (∀ r ∈ [rowS2, rowS3, rowSX, rowS1, rowS4], (r.get "score").isNullish = false) ∧
    jsGt sampleEngine (rowSX.get "score") (rowS1.get "score") = false ∧
    jsGt sampleEngine (rowS1.get "score") (rowSX.get "score") = false ∧
    (headerClickIn v8Runtime sampleEngine "score" unorderedState).tbody.map
      (fun t => t.ticker) = ["S1", "SX", "S2", "S3", "S4"] ∧
    (headerClickIn v8Runtime sampleEngine "score"
      (headerClickIn v8Runtime sampleEngine "score" unorderedState)).tbody.map
        (fun t => t.ticker) = ["S3", "S2", "SX", "S4", "S1"] ∧
    (headerClickIn v8Runtime sampleEngine "score"
      (headerClickIn v8Runtime sampleEngine "score" unorderedState)).tbody ≠
      (headerClickIn v8Runtime sampleEngine "score" unorderedState).tbody.reverse) := by
  decide

end VSp500
